import Mathlib

/-!
# CustomScheduler plugin: admission, scoring and score normalisation

A shallow embedding of `pkg/plugins/scheduler.go`.

* Go `int64` values are integers of `Int` kept in the range `[MinInt64, MaxInt64]`;
  every arithmetic operation wraps its exact result back into that range
  (`wrap64`), as Go does for signed overflow.
* Go `/` on integers truncates toward zero (`Int.tdiv`) and raises the run-time
  panic "integer divide by zero" for a zero divisor; a panic is the `none`
  result of an `Option`.
* A slice that is rewritten in place is a list that is passed in and returned.
-/

namespace Plugins

/-! ## Machine integers -/

/-- The constant `math.MinInt64`. -/
def MinInt64 : Int := -9223372036854775808

/-- The constant `math.MaxInt64`. -/
def MaxInt64 : Int := 9223372036854775807

/-- Two's-complement reduction of an exact integer to the `int64` range. -/
def wrap64 (x : Int) : Int := (x + 9223372036854775808) % 18446744073709551616 - 9223372036854775808

/-- An integer that is a value of the Go type `int64`. -/
def isInt64 (x : Int) : Prop := MinInt64 ≤ x ∧ x ≤ MaxInt64

instance (x : Int) : Decidable (isInt64 x) := by
  unfold isInt64; exact inferInstance

/-- Go `a - b` on `int64`. -/
def sub64 (a b : Int) : Int := wrap64 (a - b)

/-- Go `a * b` on `int64`. -/
def mul64 (a b : Int) : Int := wrap64 (a * b)

/-- Go unary `-a` on `int64`. -/
def neg64 (a : Int) : Int := wrap64 (-a)

/-- Go `a / b` on `int64`: truncated quotient, `none` for the divide-by-zero panic.
`MinInt64 / -1` wraps to `MinInt64`. -/
def div64 (a b : Int) : Option Int :=
  if b = 0 then none else some (wrap64 (Int.tdiv a b))

/-! ## Framework types -/

/-- The status codes of `framework.Code` that the plugin produces. -/
inductive Code where
  | Success
  | Error
  | Unschedulable
  deriving DecidableEq, Repr

/-- The type `framework.NodeScore`: a node name with its `int64` score. -/
structure NodeScore where
  Name : String
  Score : Int
  deriving DecidableEq, Repr

/-- The constant `framework.MinNodeScore`. -/
def MinNodeScore : Int := 0

/-- The constant `framework.MaxNodeScore`. -/
def MaxNodeScore : Int := 100

/-! ## NormalizeScore -/

/-- The first loop of `NormalizeScore`: one pass that updates the running
`(maxScore, minScore)` pair. -/
def scanRange : List NodeScore → Int × Int → Int × Int
  | [], acc => acc
  | s :: rest, (maxScore, minScore) =>
    scanRange rest
      (if s.Score > maxScore then s.Score else maxScore,
       if s.Score < minScore then s.Score else minScore)

/-- The second loop of `NormalizeScore`: each score becomes
`(score - minScore) * 100 / (maxScore - minScore)`, in `int64` arithmetic. The
first division by zero aborts the loop. -/
def rescale (maxScore minScore : Int) : List NodeScore → Option (List NodeScore)
  | [] => some []
  | s :: rest =>
    match div64 (mul64 (sub64 s.Score minScore) 100) (sub64 maxScore minScore) with
    | none => none
    | some q =>
      match rescale maxScore minScore rest with
      | none => none
      | some rest1 => some ({ s with Score := q } :: rest1)

/-- The method `NormalizeScore`: the rewritten score list together with the returned
status (`nil`, which is `Success`), or `none` when the call panics. -/
def NormalizeScore (scores : List NodeScore) : Option (List NodeScore × Code) :=
  match scanRange scores (MinInt64, MaxInt64) with
  | (maxScore, minScore) =>
    match rescale maxScore minScore scores with
    | none => none
    | some out => some (out, Code.Success)

/-! ## Labels, pods and the pod lister -/

/-- The constant `groupNameLabel`. -/
def groupNameLabel : String := "podGroup"

/-- The constant `minAvailableLabel`. -/
def minAvailableLabel : String := "minAvailable"

/-- The constant `leastMode`. -/
def leastMode : String := "Least"

/-- The constant `mostMode`. -/
def mostMode : String := "Most"

/-- A label set `map[string]string`, as an association list in which the first
binding of a key is the one the map holds. -/
abbrev LabelSet := List (String × String)

/-- The pod fields that the plugin reads: `ObjectMeta.Name` and `ObjectMeta.Labels`. -/
structure Pod where
  Name : String
  Labels : LabelSet
  deriving DecidableEq, Repr

/-- Go map indexing `m[key]`: the value bound to `key`, or the zero value `""` when the
key is absent. -/
def getLabel (m : LabelSet) (key : String) : String :=
  match m.lookup key with
  | some v => v
  | none => ""

/-- The selector `labels.SelectorFromSet(map[string]string{key: value})` applied to a pod: an
equality requirement, met when the pod has the key and its value is `value`. -/
def selectorMatches (key value : String) (p : Pod) : Bool :=
  match p.Labels.lookup key with
  | some v => v == value
  | none => false

/-- The call `Pods().Lister().List(selector)` on the informer store: the stored pods that
the selector matches. -/
def listPods (store : List Pod) (key value : String) : List Pod :=
  store.filter (selectorMatches key value)

/-! ## strconv.Atoi -/

/-- The value of a decimal digit byte, `none` for any other character. -/
def digitVal (c : Char) : Option Nat :=
  if 48 ≤ c.toNat ∧ c.toNat ≤ 57 then some (c.toNat - 48) else none

/-- The digit loop of `strconv.ParseUint` in base 10, on exact naturals. -/
def parseDigits : List Char → Nat → Option Nat
  | [], n => some n
  | c :: cs, n =>
    match digitVal c with
    | none => none
    | some d => parseDigits cs (n * 10 + d)

/-- The part of `strconv.ParseInt` after the sign is stripped: at least one digit is
required, the digits are read by `parseDigits`, and the magnitude `un` is checked against
the `int64` range (`un < 2^63`, or `un ≤ 2^63` under a minus sign). -/
def parseMagnitude (neg : Bool) (ds : List Char) : Option Int :=
  match ds with
  | [] => none
  | d :: ds1 =>
    match parseDigits (d :: ds1) 0 with
    | none => none
    | some un =>
      if neg then
        (if un > 9223372036854775808 then none else some (-(un : Int)))
      else
        (if un ≥ 9223372036854775808 then none else some (un : Int))

/-- The function `strconv.Atoi` on a 64-bit platform: an optional sign `+` or `-` followed
by at least one decimal digit, with a value in the `int64` range. The result is `none`
when Go returns a non-nil error (syntax or range). -/
def Atoi (s : String) : Option Int :=
  match s.toList with
  | [] => none
  | c :: cs =>
    if c = '-' then parseMagnitude true cs
    else if c = '+' then parseMagnitude false cs
    else parseMagnitude false (c :: cs)

/-! ## PreFilter -/

/-- The method `PreFilter`, over the pods held by the informer store. The returned
`*framework.PreFilterResult` is always `nil`; the result here is the code of the
returned status. -/
def PreFilter (store : List Pod) (pod : Pod) : Code :=
  let podLables := pod.Labels
  let pods := listPods store groupNameLabel (getLabel podLables groupNameLabel)
  match Atoi (getLabel podLables minAvailableLabel) with
  | none => Code.Unschedulable
  | some minAvailable =>
    if (pods.length : Int) < minAvailable then Code.Unschedulable else Code.Success

/-! ## Score -/

/-- The plugin value: `scoreMode` (the framework handle is the explicit store or node
list that each method takes). -/
structure CustomScheduler where
  scoreMode : String
  deriving DecidableEq, Repr

/-- The fields of `framework.NodeInfo` that `Score` reads: the node name and
`Allocatable.Memory`, an `int64`. -/
structure NodeInfo where
  Name : String
  AllocatableMemory : Int
  deriving DecidableEq, Repr

/-- The call `SnapshotSharedLister().NodeInfos().Get(nodeName)`: the node of that name,
`none` (a nil pointer) when the snapshot has none. -/
def getNodeInfo (nodes : List NodeInfo) (nodeName : String) : Option NodeInfo :=
  nodes.find? (fun n => n.Name == nodeName)

/-- The method `Score`: the `int64` score with the status code (`nil`, which is `Success`),
or `none` for the nil-dereference panic on a node missing from the snapshot. -/
def Score (cs : CustomScheduler) (nodes : List NodeInfo) (nodeName : String) :
    Option (Int × Code) :=
  match getNodeInfo nodes nodeName with
  | none => none
  | some nodeInfo =>
    let allocatableMemory := nodeInfo.AllocatableMemory
    if cs.scoreMode = leastMode then some (neg64 allocatableMemory, Code.Success)
    else if cs.scoreMode = mostMode then some (allocatableMemory, Code.Success)
    else some (0, Code.Success)

/-! ## New -/

/-- The type `CustomSchedulerArgs`: the decoded plugin arguments. -/
structure CustomSchedulerArgs where
  Mode : String
  deriving DecidableEq, Repr

/-- The type `runtime.Unknown`, of which `New` reads the field `Raw` (the bytes of the
configuration, as a string). -/
structure Unknown where
  Raw : String
  deriving DecidableEq, Repr

/-- The result `(framework.Plugin, error)` of `New`: the plugin with a nil error, or no
plugin with the message of the error. -/
inductive NewResult where
  | plugin (cs : CustomScheduler)
  | err (msg : String)
  deriving DecidableEq, Repr

/-- The function `New`. The argument `obj` is `none` for a nil object. The library call
`json.Unmarshal(args.Raw, &csArgs)` is the parameter `jsonUnmarshal`: from the raw bytes and
the zero-valued `csArgs` it gives the value that `csArgs` holds after the call and whether
the returned error is non-nil; `New` prints that error and goes on. -/
def New (jsonUnmarshal : String → CustomSchedulerArgs → CustomSchedulerArgs × Bool)
    (obj : Option Unknown) : NewResult :=
  let mode := leastMode
  match obj with
  | none => NewResult.plugin { scoreMode := mode }
  | some args =>
    match jsonUnmarshal args.Raw { Mode := "" } with
    | (csArgs, _) =>
      let mode := csArgs.Mode
      if mode ≠ leastMode ∧ mode ≠ mostMode then
        NewResult.err ("invalid mode, got " ++ mode)
      else NewResult.plugin { scoreMode := mode }

/-! ## NormalizeScore as an update of the slice -/

/-- The second loop of `NormalizeScore` as an update in place: the contents of the slice when
the loop ends, and whether it ended by the divide-by-zero panic. At a panic the entry under
work and the entries after it are left as they were. -/
def rescaleInPlace (maxScore minScore : Int) : List NodeScore → List NodeScore × Bool
  | [] => ([], false)
  | s :: rest =>
    match div64 (mul64 (sub64 s.Score minScore) 100) (sub64 maxScore minScore) with
    | none => (s :: rest, true)
    | some q =>
      match rescaleInPlace maxScore minScore rest with
      | (rest1, panicked) => ({ s with Score := q } :: rest1, panicked)

/-- The method `NormalizeScore` as an update in place: the contents of the slice `scores`
when the call ends, and the returned status, `none` when the call panicked. -/
def NormalizeScoreInPlace (scores : List NodeScore) : List NodeScore × Option Code :=
  match scanRange scores (MinInt64, MaxInt64) with
  | (maxScore, minScore) =>
    match rescaleInPlace maxScore minScore scores with
    | (out, true) => (out, none)
    | (out, false) => (out, some Code.Success)

/-! ## Specification-side notions for score batches -/

/-- Every score of the batch is an `int64` value. -/
def wellFormed (scores : List NodeScore) : Prop := ∀ e ∈ scores, isInt64 e.Score

/-- The batch holds at least two distinct raw scores. -/
def nonDegenerate (scores : List NodeScore) : Prop :=
  ∃ a ∈ scores, ∃ b ∈ scores, a.Score ≠ b.Score

/-- The integer `m` is the smallest raw score of the batch. -/
def isBatchMin (scores : List NodeScore) (m : Int) : Prop :=
  (∃ e ∈ scores, e.Score = m) ∧ ∀ e ∈ scores, m ≤ e.Score

/-- The integer `m` is the largest raw score of the batch. -/
def isBatchMax (scores : List NodeScore) (m : Int) : Prop :=
  (∃ e ∈ scores, e.Score = m) ∧ ∀ e ∈ scores, e.Score ≤ m

instance (scores : List NodeScore) : Decidable (wellFormed scores) := by
  unfold wellFormed; exact inferInstance

instance (scores : List NodeScore) : Decidable (nonDegenerate scores) := by
  unfold nonDegenerate; exact inferInstance

instance (scores : List NodeScore) (m : Int) : Decidable (isBatchMin scores m) := by
  unfold isBatchMin; exact inferInstance

instance (scores : List NodeScore) (m : Int) : Decidable (isBatchMax scores m) := by
  unfold isBatchMax; exact inferInstance

/-- The normalisation formula of the specification on exact (unbounded) integers:
`MinScore + (s - minScore) * (MaxScore - MinScore) / (maxScore - minScore)` with the
division truncating toward zero. -/
def specNormalized (minScore maxScore s : Int) : Int :=
  MinNodeScore + Int.tdiv ((s - minScore) * (MaxNodeScore - MinNodeScore)) (maxScore - minScore)

/-- The largest spread `maxScore - minScore` for which `(s - minScore) * 100` stays in
the `int64` range: `MaxInt64 / 100`. -/
def maxSpread : Int := MaxInt64 / 100

/-- The number of pods of the store that carry the group label with the value `g`: the
members of group `g` in the snapshot. -/
def groupMembers (store : List Pod) (g : String) : Nat :=
  store.countP (fun p => decide (p.Labels.lookup groupNameLabel = some g))

/-- The character is one of the decimal digits `0` to `9` (codes 48 to 57). -/
def isDigitChar (c : Char) : Prop := 48 ≤ c.toNat ∧ c.toNat ≤ 57

/-- The natural number that a string of decimal digits denotes. -/
def decimalValue : List Char → Nat
  | [] => 0
  | c :: cs => (c.toNat - 48) * 10 ^ cs.length + decimalValue cs

/-- The string `s` is a decimal numeral of the integer `n` in the `int64` range: a
non-empty string of decimal digits, with an optional sign `+` or `-` in front. -/
def isDecimalInt64 (s : String) (n : Int) : Prop :=
  ∃ ds : List Char, ds ≠ [] ∧ (∀ c ∈ ds, isDigitChar c) ∧ isInt64 n ∧
    ((s.toList = ds ∧ n = decimalValue ds) ∨
     (s.toList = '+' :: ds ∧ n = decimalValue ds) ∨
     (s.toList = '-' :: ds ∧ n = -(decimalValue ds : Int)))

/-- The score that the second loop stores for the raw score `s`, when it does not panic. -/
def rescaled (maxScore minScore s : Int) : Int :=
  wrap64 (Int.tdiv (mul64 (sub64 s minScore) 100) (sub64 maxScore minScore))

/-! ## Lemmas on machine integers -/

theorem wrap64_of_isInt64 {x : Int} (h : isInt64 x) : wrap64 x = x := by
  unfold isInt64 MinInt64 MaxInt64 at h
  unfold wrap64
  omega

theorem isInt64_wrap64 (x : Int) : isInt64 (wrap64 x) := by
  unfold isInt64 MinInt64 MaxInt64 wrap64
  omega

theorem sub64_ne_zero {a b : Int} (ha : isInt64 a) (hb : isInt64 b) (h : a ≠ b) :
    sub64 a b ≠ 0 := by
  unfold isInt64 MinInt64 MaxInt64 at ha hb
  unfold sub64 wrap64
  omega

/-! ## Lemmas on the two loops of NormalizeScore -/

theorem scanRange_spec (l : List NodeScore) : ∀ a b : Int,
    (a ≤ (scanRange l (a, b)).1 ∧ (∀ e ∈ l, e.Score ≤ (scanRange l (a, b)).1) ∧
      ((scanRange l (a, b)).1 = a ∨ ∃ e ∈ l, e.Score = (scanRange l (a, b)).1)) ∧
    ((scanRange l (a, b)).2 ≤ b ∧ (∀ e ∈ l, (scanRange l (a, b)).2 ≤ e.Score) ∧
      ((scanRange l (a, b)).2 = b ∨ ∃ e ∈ l, e.Score = (scanRange l (a, b)).2)) := by
  induction l with
  | nil => intro a b; simp [scanRange]
  | cons s rest ih =>
    intro a b
    simp only [scanRange]
    have ha : a ≤ (if s.Score > a then s.Score else a) ∧
        s.Score ≤ (if s.Score > a then s.Score else a) ∧
        ((if s.Score > a then s.Score else a) = a ∨
          (if s.Score > a then s.Score else a) = s.Score) := by
      split_ifs <;> omega
    have hb : (if s.Score < b then s.Score else b) ≤ b ∧
        (if s.Score < b then s.Score else b) ≤ s.Score ∧
        ((if s.Score < b then s.Score else b) = b ∨
          (if s.Score < b then s.Score else b) = s.Score) := by
      split_ifs <;> omega
    generalize (if s.Score > a then s.Score else a) = a1 at ha
    generalize (if s.Score < b then s.Score else b) = b1 at hb
    obtain ⟨⟨h1, h2, h3⟩, h4, h5, h6⟩ := ih a1 b1
    obtain ⟨ha1, ha2, ha3⟩ := ha
    obtain ⟨hb1, hb2, hb3⟩ := hb
    refine ⟨⟨by omega, ?_, ?_⟩, by omega, ?_, ?_⟩
    · intro e he
      rcases List.mem_cons.mp he with hes | he
      · subst hes; omega
      · exact h2 e he
    · rcases h3 with h3 | ⟨e, he, h3⟩
      · rcases ha3 with ha3 | ha3
        · left; omega
        · right; exact ⟨s, List.mem_cons_self _ _, by omega⟩
      · right; exact ⟨e, List.mem_cons_of_mem _ he, h3⟩
    · intro e he
      rcases List.mem_cons.mp he with hes | he
      · subst hes; omega
      · exact h5 e he
    · rcases h6 with h6 | ⟨e, he, h6⟩
      · rcases hb3 with hb3 | hb3
        · left; omega
        · right; exact ⟨s, List.mem_cons_self _ _, by omega⟩
      · right; exact ⟨e, List.mem_cons_of_mem _ he, h6⟩

theorem scanRange_eq {scores : List NodeScore} {mn mx : Int} (hw : wellFormed scores)
    (hmin : isBatchMin scores mn) (hmax : isBatchMax scores mx) :
    scanRange scores (MinInt64, MaxInt64) = (mx, mn) := by
  obtain ⟨⟨-, h2, h3⟩, -, h5, h6⟩ := scanRange_spec scores MinInt64 MaxInt64
  obtain ⟨⟨en, hen, hen1⟩, hmn⟩ := hmin
  obtain ⟨⟨ex, hex, hex1⟩, hmx⟩ := hmax
  have hwn := hw en hen
  have hwx := hw ex hex
  unfold isInt64 at hwn hwx
  have e1 : (scanRange scores (MinInt64, MaxInt64)).1 = mx := by
    have := h2 ex hex
    rcases h3 with h3 | ⟨e, he, h3⟩
    · omega
    · have := hmx e he; omega
  have e2 : (scanRange scores (MinInt64, MaxInt64)).2 = mn := by
    have := h5 en hen
    rcases h6 with h6 | ⟨e, he, h6⟩
    · omega
    · have := hmn e he; omega
  exact Prod.ext e1 e2

theorem rescale_eq_map {maxScore minScore : Int} (hd : sub64 maxScore minScore ≠ 0)
    (l : List NodeScore) :
    rescale maxScore minScore l
      = some (l.map (fun e => { e with Score := rescaled maxScore minScore e.Score })) := by
  induction l with
  | nil => rfl
  | cons s rest ih => simp [rescale, div64, hd, ih, rescaled]

theorem rescale_zero_divisor {maxScore minScore : Int} (hd : sub64 maxScore minScore = 0)
    (s : NodeScore) (rest : List NodeScore) :
    rescale maxScore minScore (s :: rest) = none := by
  simp [rescale, div64, hd]

theorem isBatch_lt {scores : List NodeScore} {mn mx : Int} (hnd : nonDegenerate scores)
    (hmin : isBatchMin scores mn) (hmax : isBatchMax scores mx) : mn < mx := by
  obtain ⟨a, ha, b, hb, hab⟩ := hnd
  have := hmin.2 a ha
  have := hmin.2 b hb
  have := hmax.2 a ha
  have := hmax.2 b hb
  omega

theorem isBatch_isInt64 {scores : List NodeScore} {mn mx : Int} (hw : wellFormed scores)
    (hmin : isBatchMin scores mn) (hmax : isBatchMax scores mx) : isInt64 mn ∧ isInt64 mx := by
  obtain ⟨⟨en, hen, rfl⟩, -⟩ := hmin
  obtain ⟨⟨ex, hex, rfl⟩, -⟩ := hmax
  exact ⟨hw en hen, hw ex hex⟩

/-- On a batch with two distinct scores, `NormalizeScore` succeeds and stores
`rescaled maxScore minScore s` for each raw score `s`. -/
theorem NormalizeScore_eq_map {scores : List NodeScore} {mn mx : Int} (hw : wellFormed scores)
    (hnd : nonDegenerate scores) (hmin : isBatchMin scores mn) (hmax : isBatchMax scores mx) :
    NormalizeScore scores
      = some (scores.map (fun e => { e with Score := rescaled mx mn e.Score }), Code.Success) := by
  have hlt := isBatch_lt hnd hmin hmax
  obtain ⟨hi1, hi2⟩ := isBatch_isInt64 hw hmin hmax
  have hd : sub64 mx mn ≠ 0 := sub64_ne_zero hi2 hi1 (by omega)
  simp only [NormalizeScore, scanRange_eq hw hmin hmax, rescale_eq_map hd]

/-- Without overflow the stored score is the exact formula of the specification. -/
theorem rescaled_exact {mn mx s : Int} (h1 : mn ≤ s) (h2 : s ≤ mx) (h3 : mn < mx)
    (h4 : mx - mn ≤ maxSpread) : rescaled mx mn s = specNormalized mn mx s := by
  unfold maxSpread MaxInt64 at h4
  have e1 : sub64 s mn = s - mn := by unfold sub64 wrap64; omega
  have e2 : sub64 mx mn = mx - mn := by unfold sub64 wrap64; omega
  have e3 : mul64 (s - mn) 100 = (s - mn) * 100 := by unfold mul64 wrap64; omega
  have hq : Int.tdiv ((s - mn) * 100) (mx - mn) = (s - mn) * 100 / (mx - mn) :=
    Int.tdiv_eq_ediv (by omega) (by omega)
  have hq0 : 0 ≤ (s - mn) * 100 / (mx - mn) := Int.ediv_nonneg (by omega) (by omega)
  have hq1 : (s - mn) * 100 / (mx - mn) ≤ 100 := by
    apply Int.ediv_le_of_le_mul (by omega)
    nlinarith
  unfold rescaled specNormalized MinNodeScore MaxNodeScore
  rw [e1, e2, e3]
  simp only [sub_zero, zero_add]
  rw [hq]
  unfold wrap64
  omega

theorem specNormalized_bounds {mn mx s : Int} (h1 : mn ≤ s) (h2 : s ≤ mx) (h3 : mn < mx) :
    0 ≤ specNormalized mn mx s ∧ specNormalized mn mx s ≤ 100 := by
  unfold specNormalized MinNodeScore MaxNodeScore
  simp only [sub_zero, zero_add]
  rw [Int.tdiv_eq_ediv (by omega) (by omega)]
  refine ⟨Int.ediv_nonneg (by omega) (by omega), ?_⟩
  apply Int.ediv_le_of_le_mul (by omega)
  nlinarith

theorem NormalizeScore_degenerate {scores : List NodeScore} {m : Int} (hw : wellFormed scores)
    (hne : scores ≠ []) (hmin : isBatchMin scores m) (hmax : isBatchMax scores m) :
    NormalizeScore scores = none := by
  have hd : sub64 m m = 0 := by unfold sub64 wrap64; omega
  cases scores with
  | nil => exact absurd rfl hne
  | cons s rest =>
    simp only [NormalizeScore, scanRange_eq hw hmin hmax, rescale_zero_divisor hd]

theorem exists_isBatch {scores : List NodeScore} (hw : wellFormed scores) (hne : scores ≠ []) :
    ∃ mn mx, isBatchMin scores mn ∧ isBatchMax scores mx := by
  obtain ⟨⟨-, h2, h3⟩, -, h5, h6⟩ := scanRange_spec scores MinInt64 MaxInt64
  cases scores with
  | nil => exact absurd rfl hne
  | cons s rest =>
    have hs := hw s (List.mem_cons_self _ _)
    have hs2 := h2 s (List.mem_cons_self _ _)
    have hs5 := h5 s (List.mem_cons_self _ _)
    unfold isInt64 at hs
    refine ⟨(scanRange (s :: rest) (MinInt64, MaxInt64)).2,
      (scanRange (s :: rest) (MinInt64, MaxInt64)).1, ⟨?_, h5⟩, ?_, h2⟩
    · rcases h6 with h6 | h6
      · exact ⟨s, List.mem_cons_self _ _, by omega⟩
      · exact h6
    · rcases h3 with h3 | h3
      · exact ⟨s, List.mem_cons_self _ _, by omega⟩
      · exact h3

theorem rescaled_min {mn mx : Int} : rescaled mx mn mn = 0 := by
  have e1 : sub64 mn mn = 0 := by unfold sub64 wrap64; omega
  have e2 : mul64 0 100 = 0 := by unfold mul64 wrap64; omega
  unfold rescaled
  rw [e1, e2, Int.zero_tdiv]
  unfold wrap64
  omega

theorem specNormalized_max {mn mx : Int} (h : mn < mx) : specNormalized mn mx mx = 100 := by
  unfold specNormalized MinNodeScore MaxNodeScore
  simp only [sub_zero, zero_add]
  exact Int.mul_tdiv_cancel_left 100 (by omega)

/-- The three cases of `TestCustomScheduler_NormalizeScore`. -/
theorem NormalizeScore_tests :
    NormalizeScore [⟨"m1", 1⟩, ⟨"m2", 2⟩, ⟨"m3", 3⟩]
      = some ([⟨"m1", 0⟩, ⟨"m2", 50⟩, ⟨"m3", 100⟩], Code.Success) ∧
    NormalizeScore [⟨"m1", 1000⟩, ⟨"m2", 2000⟩, ⟨"m3", 3000⟩]
      = some ([⟨"m1", 0⟩, ⟨"m2", 50⟩, ⟨"m3", 100⟩], Code.Success) ∧
    NormalizeScore [⟨"m1", -1000⟩, ⟨"m2", -2000⟩, ⟨"m3", -3000⟩]
      = some ([⟨"m1", 100⟩, ⟨"m2", 50⟩, ⟨"m3", 0⟩], Code.Success) := by
  decide

/-! ## Claims on NormalizeScore -/

/-- C1, the code at the failing input: on the batch `a ↦ 0`, `b ↦ 2^57`, which has two
distinct `int64` scores with minimum `0` and maximum `2^57`, the unguarded product
`2^57 * 100` exceeds the `int64` range and wraps, `NormalizeScore` stores `-28` for `b`, and
the formula of the claim gives `100`. -/
theorem C1_formula_overflow :
    wellFormed [⟨"a", 0⟩, ⟨"b", 144115188075855872⟩] ∧
    nonDegenerate [⟨"a", 0⟩, ⟨"b", 144115188075855872⟩] ∧
    isBatchMin [⟨"a", 0⟩, ⟨"b", 144115188075855872⟩] 0 ∧
    isBatchMax [⟨"a", 0⟩, ⟨"b", 144115188075855872⟩] 144115188075855872 ∧
    NormalizeScore [⟨"a", 0⟩, ⟨"b", 144115188075855872⟩]
      = some ([⟨"a", 0⟩, ⟨"b", -28⟩], Code.Success) ∧
    specNormalized 0 144115188075855872 144115188075855872 = 100 ∧
    NormalizeScore [⟨"a", 0⟩, ⟨"b", 144115188075855872⟩]
      ≠ some (([⟨"a", 0⟩, ⟨"b", 144115188075855872⟩] : List NodeScore).map
          (fun e => { e with Score := specNormalized 0 144115188075855872 e.Score }),
          Code.Success) := by
  decide

/-- Where the product does not overflow the formula of C1 holds: for every batch of `int64`
scores that contains at least two distinct raw scores and whose spread `maxScore - minScore` is at most `MaxInt64 / 100`, `NormalizeScore`
succeeds and replaces each score `s` by
`MinScore + (s - minScore) * (MaxScore - MinScore) / (maxScore - minScore)` computed on exact
integers with the division truncating toward zero, where `minScore` and `maxScore` are the
smallest and largest raw score, `MinScore = 0` and `MaxScore = 100`. -/
theorem NormalizeScore_formula_within_spread (scores : List NodeScore) (minScore maxScore : Int)
    (hw : wellFormed scores) (hnd : nonDegenerate scores)
    (hmin : isBatchMin scores minScore) (hmax : isBatchMax scores maxScore)
    (hspread : maxScore - minScore ≤ maxSpread) :
    NormalizeScore scores
      = some (scores.map (fun e => { e with Score := specNormalized minScore maxScore e.Score }),
          Code.Success) := by
  rw [NormalizeScore_eq_map hw hnd hmin hmax]
  have hlt := isBatch_lt hnd hmin hmax
  have hm : scores.map (fun e => ({ e with Score := rescaled maxScore minScore e.Score } : NodeScore))
      = scores.map (fun e => { e with Score := specNormalized minScore maxScore e.Score }) := by
    apply List.map_congr_left
    intro e he
    rw [rescaled_exact (hmin.2 e he) (hmax.2 e he) hlt hspread]
  rw [hm]

/-- The formula at the batch `1, 2, 3` of the test "scores in range": the result is
`0, 50, 100`. -/
theorem NormalizeScore_formula_within_spread_example :
    NormalizeScore [⟨"m1", 1⟩, ⟨"m2", 2⟩, ⟨"m3", 3⟩]
      = some ([⟨"m1", 0⟩, ⟨"m2", 50⟩, ⟨"m3", 100⟩], Code.Success) :=
  NormalizeScore_formula_within_spread [⟨"m1", 1⟩, ⟨"m2", 2⟩, ⟨"m3", 3⟩] 1 3
    (by decide) (by decide) (by decide) (by decide) (by decide)

/-- C2, the code at the failing input: on the batch `-10^17, -2*10^17, -3*10^17` (two
distinct `int64` scores, maximum `-10^17` held by `m1`) the unguarded product
`(s - minScore) * 100` wraps and `NormalizeScore` stores `7` for `m1`, the entry of the batch
maximum, not `100`, and `-42` for `m2`. -/
theorem C2_fixed_points_overflow :
    wellFormed [⟨"m1", -100000000000000000⟩, ⟨"m2", -200000000000000000⟩,
      ⟨"m3", -300000000000000000⟩] ∧
    nonDegenerate [⟨"m1", -100000000000000000⟩, ⟨"m2", -200000000000000000⟩,
      ⟨"m3", -300000000000000000⟩] ∧
    isBatchMax [⟨"m1", -100000000000000000⟩, ⟨"m2", -200000000000000000⟩,
      ⟨"m3", -300000000000000000⟩] (-100000000000000000) ∧
    NormalizeScore [⟨"m1", -100000000000000000⟩, ⟨"m2", -200000000000000000⟩,
      ⟨"m3", -300000000000000000⟩]
      = some ([⟨"m1", 7⟩, ⟨"m2", -42⟩, ⟨"m3", 0⟩], Code.Success) ∧
    (7 : Int) ≠ MaxNodeScore := by
  decide

/-- The fixed points of C2 where the product does not overflow: for every batch of `int64`
scores with at least two distinct raw scores,
`NormalizeScore` succeeds and every entry whose raw score equals the batch minimum holds
exactly `MinScore = 0`; when moreover the spread `maxScore - minScore` is at most
`MaxInt64 / 100`, every entry whose raw score equals the batch maximum holds exactly
`MaxScore = 100`. -/
theorem NormalizeScore_fixed_points_within_spread (scores : List NodeScore) (minScore maxScore : Int)
    (hw : wellFormed scores) (hnd : nonDegenerate scores)
    (hmin : isBatchMin scores minScore) (hmax : isBatchMax scores maxScore) :
    ∃ out, NormalizeScore scores = some (out, Code.Success) ∧
      List.Forall₂ (fun (raw res : NodeScore) =>
        (raw.Score = minScore → res.Score = MinNodeScore) ∧
        (maxScore - minScore ≤ maxSpread → raw.Score = maxScore → res.Score = MaxNodeScore))
        scores out := by
  refine ⟨_, NormalizeScore_eq_map hw hnd hmin hmax, ?_⟩
  have hlt := isBatch_lt hnd hmin hmax
  rw [List.forall₂_map_right_iff, List.forall₂_same]
  intro e he
  refine ⟨?_, ?_⟩
  · intro h
    show rescaled maxScore minScore e.Score = MinNodeScore
    rw [h, rescaled_min]
    rfl
  · intro hs h
    show rescaled maxScore minScore e.Score = MaxNodeScore
    rw [h, rescaled_exact (by omega) (le_refl _) hlt hs, specNormalized_max hlt]
    rfl

/-- The fixed points at the batch `-1000, -2000, -3000` of the test "negative score": the
result exists and holds `0` at the minimum and `100` at the maximum. -/
theorem NormalizeScore_fixed_points_within_spread_example :
    ∃ out : List NodeScore, NormalizeScore [⟨"m1", -1000⟩, ⟨"m2", -2000⟩, ⟨"m3", -3000⟩]
        = some (out, Code.Success) ∧
      List.Forall₂ (fun (raw res : NodeScore) =>
        (raw.Score = -3000 → res.Score = MinNodeScore) ∧
        (-1000 - -3000 ≤ maxSpread → raw.Score = -1000 → res.Score = MaxNodeScore))
        [⟨"m1", -1000⟩, ⟨"m2", -2000⟩, ⟨"m3", -3000⟩] out :=
  NormalizeScore_fixed_points_within_spread [⟨"m1", -1000⟩, ⟨"m2", -2000⟩, ⟨"m3", -3000⟩] (-3000) (-1000)
    (by decide) (by decide) (by decide) (by decide)

/-- C3, the code at degenerate batches: with a single entry, and with three equal scores,
`maxScore - minScore` is `0` and `NormalizeScore` panics on the division instead of storing
the midpoint `50`. -/
theorem C3_degenerate_divides_by_zero :
    NormalizeScore [⟨"m1", 7⟩] = none ∧
    NormalizeScore [⟨"m1", 5⟩, ⟨"m2", 5⟩, ⟨"m3", 5⟩] = none ∧
    (MinNodeScore + MaxNodeScore) / 2 = 50 := by
  decide

/-- C4, refuted as stated: on the batch with zero entries `NormalizeScore` does return, and
its status is `Success`. -/
theorem C4_empty_batch_counterexample :
    ¬ (∀ out st, NormalizeScore [] = some (out, st) → st ≠ Code.Success) := by
  intro h
  exact h [] Code.Success (by decide) rfl

/-- C4, amended: `NormalizeScore` called on a batch with zero entries does not panic and
returns the success status, leaving the batch empty. -/
theorem C4_empty_batch_succeeds : NormalizeScore [] = some ([], Code.Success) := by
  decide

/-- C5, the code at the failing input: on the batch `0, MaxInt64 / 100 + 1` the unguarded
product wraps, the call succeeds and stores `-99`, which is below `MinScore = 0`. -/
theorem C5_range_overflow :
    wellFormed [⟨"m1", 0⟩, ⟨"m2", 92233720368547759⟩] ∧
    ∃ out st, NormalizeScore [⟨"m1", 0⟩, ⟨"m2", 92233720368547759⟩] = some (out, st) ∧
      ∃ e ∈ out, e.Score = -99 ∧ ¬ (MinNodeScore ≤ e.Score ∧ e.Score ≤ MaxNodeScore) :=
  ⟨by decide, [⟨"m1", 0⟩, ⟨"m2", -99⟩], Code.Success, by decide, ⟨"m2", -99⟩, by decide,
    by decide, by decide⟩

/-- The range of C5 where the product does not overflow: for every batch of `int64` scores in
which no two raw scores differ by more
than `MaxInt64 / 100`, if `NormalizeScore` succeeds then every resulting score lies in the
closed range `[MinScore, MaxScore] = [0, 100]`. -/
theorem NormalizeScore_range_within_spread (scores out : List NodeScore) (st : Code) (hw : wellFormed scores)
    (hspread : ∀ a ∈ scores, ∀ b ∈ scores, a.Score - b.Score ≤ maxSpread)
    (hrun : NormalizeScore scores = some (out, st)) :
    ∀ e ∈ out, MinNodeScore ≤ e.Score ∧ e.Score ≤ MaxNodeScore := by
  by_cases hne : scores = []
  · subst hne
    have h0 : NormalizeScore [] = some ([], Code.Success) := by decide
    rw [h0] at hrun
    simp only [Option.some.injEq, Prod.mk.injEq] at hrun
    intro e he
    rw [← hrun.1] at he
    cases he
  · obtain ⟨mn, mx, hmin, hmax⟩ := exists_isBatch hw hne
    obtain ⟨⟨en, hen, hen1⟩, hmn⟩ := hmin
    obtain ⟨⟨ex, hex, hex1⟩, hmx⟩ := hmax
    have hmin : isBatchMin scores mn := ⟨⟨en, hen, hen1⟩, hmn⟩
    have hmax : isBatchMax scores mx := ⟨⟨ex, hex, hex1⟩, hmx⟩
    have hle : mn ≤ mx := by have := hmn ex hex; omega
    rcases eq_or_lt_of_le hle with heq | hlt
    · subst heq
      rw [NormalizeScore_degenerate hw hne hmin hmax] at hrun
      cases hrun
    · have hnd : nonDegenerate scores := ⟨en, hen, ex, hex, by omega⟩
      have hs : mx - mn ≤ maxSpread := by have := hspread ex hex en hen; omega
      rw [NormalizeScore_eq_map hw hnd hmin hmax] at hrun
      simp only [Option.some.injEq, Prod.mk.injEq] at hrun
      intro e he
      rw [← hrun.1] at he
      obtain ⟨r, hr, rfl⟩ := List.mem_map.mp he
      show MinNodeScore ≤ rescaled mx mn r.Score ∧ rescaled mx mn r.Score ≤ MaxNodeScore
      rw [rescaled_exact (hmn r hr) (hmx r hr) hlt hs]
      exact specNormalized_bounds (hmn r hr) (hmx r hr) hlt

/-- The range at the batch `1000, 2000, 3000` of the test "scores out of range": the
call succeeds and the score `50` stored for `m2` lies in `[0, 100]`. -/
theorem NormalizeScore_range_within_spread_example :
    NormalizeScore [⟨"m1", 1000⟩, ⟨"m2", 2000⟩, ⟨"m3", 3000⟩]
      = some ([⟨"m1", 0⟩, ⟨"m2", 50⟩, ⟨"m3", 100⟩], Code.Success) ∧
    (MinNodeScore ≤ (NodeScore.mk "m2" 50).Score ∧ (NodeScore.mk "m2" 50).Score ≤ MaxNodeScore) :=
  ⟨by decide,
    NormalizeScore_range_within_spread [⟨"m1", 1000⟩, ⟨"m2", 2000⟩, ⟨"m3", 3000⟩]
      [⟨"m1", 0⟩, ⟨"m2", 50⟩, ⟨"m3", 100⟩] Code.Success (by decide) (by decide) (by decide)
      ⟨"m2", 50⟩ (by decide)⟩

/-! ## Lemmas on Atoi -/

theorem parseDigits_eq_some (ds : List Char) : ∀ acc r : Nat,
    parseDigits ds acc = some r ↔
      (∀ c ∈ ds, isDigitChar c) ∧ r = acc * 10 ^ ds.length + decimalValue ds := by
  induction ds with
  | nil => intro acc r; simp [parseDigits, decimalValue, eq_comm]
  | cons c cs ih =>
    intro acc r
    by_cases hc : isDigitChar c
    · have hd : digitVal c = some (c.toNat - 48) := by
        unfold isDigitChar at hc
        simp [digitVal, hc]
      simp only [parseDigits, hd, ih, List.mem_cons, forall_eq_or_imp, hc, true_and,
        decimalValue, List.length_cons]
      constructor
      · rintro ⟨h1, h2⟩
        exact ⟨h1, by rw [h2]; ring⟩
      · rintro ⟨h1, h2⟩
        exact ⟨h1, by rw [h2]; ring⟩
    · have hd : digitVal c = none := by
        unfold isDigitChar at hc
        simp [digitVal, hc]
      simp only [parseDigits, hd, List.mem_cons, forall_eq_or_imp, hc, false_and]
      simp

theorem parseMagnitude_eq_some (neg : Bool) (ds : List Char) (n : Int) :
    parseMagnitude neg ds = some n ↔
      ds ≠ [] ∧ (∀ c ∈ ds, isDigitChar c) ∧ isInt64 n ∧
        n = (if neg then -(decimalValue ds : Int) else (decimalValue ds : Int)) := by
  cases ds with
  | nil => simp [parseMagnitude]
  | cons d ds1 =>
    cases hp : parseDigits (d :: ds1) 0 with
    | none =>
      have hnot : ¬ ∀ c ∈ d :: ds1, isDigitChar c := by
        intro hall
        have := (parseDigits_eq_some (d :: ds1) 0 _).mpr ⟨hall, rfl⟩
        rw [hp] at this
        cases this
      simp only [parseMagnitude, hp]
      constructor
      · intro h; cases h
      · rintro ⟨-, hall, -⟩
        exact absurd hall hnot
    | some un =>
      obtain ⟨hall, hun⟩ := (parseDigits_eq_some (d :: ds1) 0 un).mp hp
      simp only [zero_mul, zero_add] at hun
      rw [← hun]
      simp only [parseMagnitude, hp]
      unfold isInt64 MinInt64 MaxInt64
      cases neg
      · simp only [Bool.false_eq_true, if_false]
        by_cases h : un ≥ 9223372036854775808
        · rw [if_pos h]
          constructor
          · intro h1; cases h1
          · rintro ⟨-, -, ⟨h1, h2⟩, h3⟩; omega
        · rw [if_neg h]
          constructor
          · intro h1
            have := Option.some.inj h1
            exact ⟨List.cons_ne_nil _ _, hall, ⟨by omega, by omega⟩, by omega⟩
          · rintro ⟨-, -, -, h3⟩
            rw [h3]
      · simp only [if_true]
        by_cases h : un > 9223372036854775808
        · rw [if_pos h]
          constructor
          · intro h1; cases h1
          · rintro ⟨-, -, ⟨h1, h2⟩, h3⟩; omega
        · rw [if_neg h]
          constructor
          · intro h1
            have := Option.some.inj h1
            exact ⟨List.cons_ne_nil _ _, hall, ⟨by omega, by omega⟩, by omega⟩
          · rintro ⟨-, -, -, h3⟩
            rw [h3]

/-- The model of `strconv.Atoi` accepts exactly the decimal numerals of `int64` values. -/
theorem Atoi_eq_some_iff (s : String) (n : Int) : Atoi s = some n ↔ isDecimalInt64 s n := by
  unfold Atoi isDecimalInt64
  cases hs : s.toList with
  | nil =>
    constructor
    · intro h; cases h
    · rintro ⟨ds, hne, -, -, h | h | h⟩
      · exact absurd h.1.symm hne
      · cases h.1
      · cases h.1
  | cons c cs =>
    show (if c = '-' then parseMagnitude true cs
      else if c = '+' then parseMagnitude false cs
      else parseMagnitude false (c :: cs)) = some n ↔ _
    have hminus : ¬ isDigitChar '-' := by unfold isDigitChar; decide
    have hplus : ¬ isDigitChar '+' := by unfold isDigitChar; decide
    by_cases h1 : c = '-'
    · subst h1
      simp only [if_true]
      rw [parseMagnitude_eq_some]
      simp only [if_true]
      constructor
      · rintro ⟨hne, hall, hi, hn⟩
        exact ⟨cs, hne, hall, hi, Or.inr (Or.inr ⟨rfl, hn⟩)⟩
      · rintro ⟨ds, hne, hall, hi, h | h | h⟩
        · rw [← h.1] at hall
          exact absurd (hall _ (List.mem_cons_self _ _)) hminus
        · have := (List.cons.inj h.1).1
          exact absurd this (by decide)
        · have := (List.cons.inj h.1).2
          subst this
          exact ⟨hne, hall, hi, h.2⟩
    · rw [if_neg h1]
      by_cases h2 : c = '+'
      · subst h2
        simp only [if_true]
        rw [parseMagnitude_eq_some]
        simp only [Bool.false_eq_true, if_false]
        constructor
        · rintro ⟨hne, hall, hi, hn⟩
          exact ⟨cs, hne, hall, hi, Or.inr (Or.inl ⟨rfl, hn⟩)⟩
        · rintro ⟨ds, hne, hall, hi, h | h | h⟩
          · rw [← h.1] at hall
            exact absurd (hall _ (List.mem_cons_self _ _)) hplus
          · have := (List.cons.inj h.1).2
            subst this
            exact ⟨hne, hall, hi, h.2⟩
          · have := (List.cons.inj h.1).1
            exact absurd this (by decide)
      · rw [if_neg h2]
        rw [parseMagnitude_eq_some]
        simp only [Bool.false_eq_true, if_false]
        constructor
        · rintro ⟨hne, hall, hi, hn⟩
          exact ⟨c :: cs, hne, hall, hi, Or.inl ⟨rfl, hn⟩⟩
        · rintro ⟨ds, hne, hall, hi, h | h | h⟩
          · obtain ⟨hds, hn⟩ := h
            subst hds
            exact ⟨hne, hall, hi, hn⟩
          · exact absurd (List.cons.inj h.1).1 h2
          · exact absurd (List.cons.inj h.1).1 h1

theorem Atoi_eq_none_iff (s : String) : Atoi s = none ↔ ¬ ∃ n, isDecimalInt64 s n := by
  constructor
  · rintro h ⟨n, hn⟩
    rw [(Atoi_eq_some_iff s n).mpr hn] at h
    cases h
  · intro h
    cases ha : Atoi s with
    | none => rfl
    | some n => exact absurd ⟨n, (Atoi_eq_some_iff s n).mp ha⟩ h

/-! ## Lemmas on PreFilter -/

theorem getLabel_of_lookup {m : LabelSet} {key v : String} (h : m.lookup key = some v) :
    getLabel m key = v := by
  simp [getLabel, h]

theorem getLabel_of_lookup_none {m : LabelSet} {key : String} (h : m.lookup key = none) :
    getLabel m key = "" := by
  simp [getLabel, h]

theorem listPods_length (store : List Pod) (g : String) :
    (listPods store groupNameLabel g).length = groupMembers store g := by
  unfold listPods groupMembers
  rw [List.countP_eq_length_filter]
  congr 1
  apply List.filter_congr
  intro p _
  unfold selectorMatches
  cases h : p.Labels.lookup groupNameLabel with
  | none => simp
  | some v => by_cases hvg : v = g <;> simp [hvg]

theorem Atoi_empty : Atoi "" = none := by decide

/-- The decision of `PreFilter` in terms of the two label values it reads. -/
theorem PreFilter_eq (store : List Pod) (pod : Pod) :
    PreFilter store pod =
      match Atoi (getLabel pod.Labels minAvailableLabel) with
      | none => Code.Unschedulable
      | some q =>
        if (groupMembers store (getLabel pod.Labels groupNameLabel) : Int) < q
        then Code.Unschedulable else Code.Success := by
  simp only [PreFilter, listPods_length]

/-- The three cases of `TestCustomScheduler_PreFilter`: three stored pods of group `g1` and
the quorum labels `1`, `3` and `5`. -/
theorem PreFilter_tests :
    PreFilter [⟨"pod0", [("podGroup", "g1")]⟩, ⟨"pod1", [("podGroup", "g1")]⟩,
      ⟨"pod2", [("podGroup", "g1")]⟩] ⟨"", [("podGroup", "g1"), ("minAvailable", "1")]⟩
      = Code.Success ∧
    PreFilter [⟨"pod0", [("podGroup", "g1")]⟩, ⟨"pod1", [("podGroup", "g1")]⟩,
      ⟨"pod2", [("podGroup", "g1")]⟩] ⟨"", [("podGroup", "g1"), ("minAvailable", "3")]⟩
      = Code.Success ∧
    PreFilter [⟨"pod0", [("podGroup", "g1")]⟩, ⟨"pod1", [("podGroup", "g1")]⟩,
      ⟨"pod2", [("podGroup", "g1")]⟩] ⟨"", [("podGroup", "g1"), ("minAvailable", "5")]⟩
      = Code.Unschedulable := by
  decide

/-- Strings that `strconv.Atoi` accepts and rejects. -/
theorem Atoi_examples :
    Atoi "3" = some 3 ∧ Atoi "+12" = some 12 ∧ Atoi "-1" = some (-1) ∧ Atoi "007" = some 7 ∧
    Atoi "-9223372036854775808" = some MinInt64 ∧ Atoi "9223372036854775807" = some MaxInt64 ∧
    Atoi "" = none ∧ Atoi "-" = none ∧ Atoi "three" = none ∧ Atoi "1a" = none ∧
    Atoi " 1" = none ∧ Atoi "1.5" = none ∧ Atoi "9223372036854775808" = none ∧
    Atoi "-9223372036854775809" = none := by
  decide

/-! ## Claims on PreFilter -/

/-- C6: for every job that carries the group label `g` and a quorum label that is a decimal
numeral of a non-negative integer `q` (so that `strconv.Atoi` parses it to `q`), and every store holding exactly `groupMembers store g` pods
labelled with group `g` (and any other pods), `PreFilter` returns `Success` if and only if
that number is at least `q`, and `Unschedulable` if and only if it is smaller. -/
theorem C6_quorum_boundary (store : List Pod) (pod : Pod) (g v : String) (q : Int)
    (hg : pod.Labels.lookup groupNameLabel = some g)
    (hv : pod.Labels.lookup minAvailableLabel = some v)
    (hq : isDecimalInt64 v q) (_hq0 : 0 ≤ q) :
    (PreFilter store pod = Code.Success ↔ q ≤ (groupMembers store g : Int)) ∧
    (PreFilter store pod = Code.Unschedulable ↔ (groupMembers store g : Int) < q) := by
  rw [PreFilter_eq, getLabel_of_lookup hg, getLabel_of_lookup hv, (Atoi_eq_some_iff v q).mpr hq]
  show ((if (groupMembers store g : Int) < q then Code.Unschedulable else Code.Success)
      = Code.Success ↔ _) ∧
    ((if (groupMembers store g : Int) < q then Code.Unschedulable else Code.Success)
      = Code.Unschedulable ↔ _)
  by_cases h : (groupMembers store g : Int) < q
  · rw [if_pos h]
    exact ⟨⟨fun h1 => (by cases h1), fun h1 => (by omega)⟩, ⟨fun _ => h, fun _ => rfl⟩⟩
  · rw [if_neg h]
    exact ⟨⟨fun _ => (by omega), fun _ => rfl⟩, ⟨fun h1 => (by cases h1), fun h1 => absurd h1 h⟩⟩

/-- C6 at the test "pod is just accepted": three stored pods of group `g1` (beside a pod of
another group and a pod without labels) and quorum `3`. -/
theorem C6_quorum_boundary_witness :
    (PreFilter [⟨"pod0", [("podGroup", "g1")]⟩, ⟨"x", [("podGroup", "g2")]⟩,
        ⟨"pod1", [("podGroup", "g1")]⟩, ⟨"y", []⟩, ⟨"pod2", [("podGroup", "g1")]⟩]
        ⟨"job", [("podGroup", "g1"), ("minAvailable", "3")]⟩ = Code.Success ↔
      (3 : Int) ≤ (groupMembers [⟨"pod0", [("podGroup", "g1")]⟩, ⟨"x", [("podGroup", "g2")]⟩,
        ⟨"pod1", [("podGroup", "g1")]⟩, ⟨"y", []⟩, ⟨"pod2", [("podGroup", "g1")]⟩] "g1" : Int)) ∧
    (PreFilter [⟨"pod0", [("podGroup", "g1")]⟩, ⟨"x", [("podGroup", "g2")]⟩,
        ⟨"pod1", [("podGroup", "g1")]⟩, ⟨"y", []⟩, ⟨"pod2", [("podGroup", "g1")]⟩]
        ⟨"job", [("podGroup", "g1"), ("minAvailable", "3")]⟩ = Code.Unschedulable ↔
      (groupMembers [⟨"pod0", [("podGroup", "g1")]⟩, ⟨"x", [("podGroup", "g2")]⟩,
        ⟨"pod1", [("podGroup", "g1")]⟩, ⟨"y", []⟩, ⟨"pod2", [("podGroup", "g1")]⟩] "g1" : Int)
        < 3) :=
  C6_quorum_boundary _ ⟨"job", [("podGroup", "g1"), ("minAvailable", "3")]⟩ "g1" "3" 3
    (by decide) (by decide) ((Atoi_eq_some_iff "3" 3).mp (by decide)) (by decide)

/-- C7, refuted as stated: a job with no labels at all is rejected on the store of the
tests (three pods of group `g1`), and so is a job with quorum label `1` and no group
label. -/
theorem C7_ungated_counterexample :
    (([] : LabelSet).lookup groupNameLabel = none ∧
      PreFilter [⟨"pod0", [("podGroup", "g1")]⟩, ⟨"pod1", [("podGroup", "g1")]⟩,
        ⟨"pod2", [("podGroup", "g1")]⟩] ⟨"job", []⟩ = Code.Unschedulable) ∧
    (([("minAvailable", "1")] : LabelSet).lookup groupNameLabel = none ∧
      PreFilter [⟨"pod0", [("podGroup", "g1")]⟩, ⟨"pod1", [("podGroup", "g1")]⟩,
        ⟨"pod2", [("podGroup", "g1")]⟩] ⟨"job", [("minAvailable", "1")]⟩
        = Code.Unschedulable) := by
  decide

/-- C7, amended: a job that has no group label is handled as a member of the group with the
empty name: `PreFilter` returns `Success` if and only if its quorum label is a decimal
numeral of an integer `q` and at least `q` stored pods carry the group label with the empty value; in
particular, when it has no quorum label either it is rejected for every store. -/
theorem C7_ungated (store : List Pod) (pod : Pod)
    (hg : pod.Labels.lookup groupNameLabel = none) :
    (PreFilter store pod = Code.Success ↔
      ∃ v q, pod.Labels.lookup minAvailableLabel = some v ∧ isDecimalInt64 v q ∧
        q ≤ (groupMembers store "" : Int)) ∧
    (pod.Labels.lookup minAvailableLabel = none → PreFilter store pod = Code.Unschedulable) := by
  rw [PreFilter_eq, getLabel_of_lookup_none hg]
  constructor
  · cases hv : pod.Labels.lookup minAvailableLabel with
    | none =>
      rw [getLabel_of_lookup_none hv, Atoi_empty]
      constructor
      · intro h1; cases h1
      · rintro ⟨v1, q1, h1, -, -⟩
        cases h1
    | some v =>
      rw [getLabel_of_lookup hv]
      cases hq : Atoi v with
      | none =>
        constructor
        · intro h1; cases h1
        · rintro ⟨v1, q1, h1, h2, -⟩
          rw [← Atoi_eq_some_iff, ← Option.some.inj h1, hq] at h2
          cases h2
      | some q =>
        show (if (groupMembers store "" : Int) < q then Code.Unschedulable else Code.Success)
          = Code.Success ↔ _
        by_cases h : (groupMembers store "" : Int) < q
        · rw [if_pos h]
          constructor
          · intro h1; cases h1
          · rintro ⟨v1, q1, h1, h2, h3⟩
            rw [← Atoi_eq_some_iff, ← Option.some.inj h1, hq] at h2
            have := Option.some.inj h2
            omega
        · rw [if_neg h]
          constructor
          · intro _; exact ⟨v, q, rfl, (Atoi_eq_some_iff v q).mp hq, by omega⟩
          · intro _; rfl
  · intro hv
    rw [getLabel_of_lookup_none hv, Atoi_empty]

/-- C7, amended, at a job whose only label is the quorum `0`, on the store of the tests. -/
theorem C7_ungated_witness :
    (PreFilter [⟨"pod0", [("podGroup", "g1")]⟩] ⟨"job", [("minAvailable", "0")]⟩
        = Code.Success ↔
      ∃ v q, ([("minAvailable", "0")] : LabelSet).lookup minAvailableLabel = some v ∧
        isDecimalInt64 v q ∧ q ≤ (groupMembers [⟨"pod0", [("podGroup", "g1")]⟩] "" : Int)) ∧
    (([("minAvailable", "0")] : LabelSet).lookup minAvailableLabel = none →
      PreFilter [⟨"pod0", [("podGroup", "g1")]⟩] ⟨"job", [("minAvailable", "0")]⟩
        = Code.Unschedulable) :=
  C7_ungated [⟨"pod0", [("podGroup", "g1")]⟩] ⟨"job", [("minAvailable", "0")]⟩ (by decide)

/-- C8: for every job with a group label whose quorum label is missing, or is a string that
is not a decimal numeral of any `int64` value (empty, non-numeric, or out of range, so that
`strconv.Atoi` returns an error), `PreFilter` does not panic and returns `Unschedulable` for
every store. -/
theorem C8_unparsable_quorum_rejected (store : List Pod) (pod : Pod) (g : String)
    (_hg : pod.Labels.lookup groupNameLabel = some g)
    (hbad : pod.Labels.lookup minAvailableLabel = none ∨
      ∃ v, pod.Labels.lookup minAvailableLabel = some v ∧ ¬ ∃ n, isDecimalInt64 v n) :
    PreFilter store pod = Code.Unschedulable := by
  rw [PreFilter_eq]
  rcases hbad with hv | ⟨v, hv, hq⟩
  · rw [getLabel_of_lookup_none hv, Atoi_empty]
  · rw [getLabel_of_lookup hv, (Atoi_eq_none_iff v).mpr hq]

/-- C8 at a job of group `g1` with the non-numeric quorum label `three`, on a store with
three members of `g1`. -/
theorem C8_unparsable_quorum_rejected_witness :
    PreFilter [⟨"pod0", [("podGroup", "g1")]⟩, ⟨"pod1", [("podGroup", "g1")]⟩,
      ⟨"pod2", [("podGroup", "g1")]⟩]
      ⟨"job", [("podGroup", "g1"), ("minAvailable", "three")]⟩ = Code.Unschedulable :=
  C8_unparsable_quorum_rejected _ ⟨"job", [("podGroup", "g1"), ("minAvailable", "three")]⟩ "g1"
    (by decide) (Or.inr ⟨"three", by decide, (Atoi_eq_none_iff "three").mp (by decide)⟩)

/-- C9, refuted as stated: a job of group `g1` with the quorum label `-1` is admitted, on
the empty store and on the store of the tests. -/
theorem C9_negative_quorum_counterexample :
    Atoi "-1" = some (-1) ∧
    PreFilter [] ⟨"job", [("podGroup", "g1"), ("minAvailable", "-1")]⟩ = Code.Success ∧
    PreFilter [⟨"pod0", [("podGroup", "g1")]⟩, ⟨"pod1", [("podGroup", "g1")]⟩,
      ⟨"pod2", [("podGroup", "g1")]⟩]
      ⟨"job", [("podGroup", "g1"), ("minAvailable", "-1")]⟩ = Code.Success := by
  decide

/-- C9, amended: for every job with a group label whose quorum label is a decimal numeral of
a negative integer (so that `strconv.Atoi` parses it to that integer), `PreFilter` returns
`Success` for every store. -/
theorem C9_negative_quorum_admitted (store : List Pod) (pod : Pod) (g v : String) (q : Int)
    (_hg : pod.Labels.lookup groupNameLabel = some g)
    (hv : pod.Labels.lookup minAvailableLabel = some v)
    (hq : isDecimalInt64 v q) (hneg : q < 0) :
    PreFilter store pod = Code.Success := by
  rw [PreFilter_eq, getLabel_of_lookup hv, (Atoi_eq_some_iff v q).mpr hq]
  show (if (groupMembers store (getLabel pod.Labels groupNameLabel) : Int) < q
    then Code.Unschedulable else Code.Success) = Code.Success
  rw [if_neg (by omega)]

/-- C9, amended, at a job of group `g1` with the quorum label `-5` on the empty store. -/
theorem C9_negative_quorum_admitted_witness :
    PreFilter [] ⟨"job", [("podGroup", "g1"), ("minAvailable", "-5")]⟩ = Code.Success :=
  C9_negative_quorum_admitted [] ⟨"job", [("podGroup", "g1"), ("minAvailable", "-5")]⟩
    "g1" "-5" (-5) (by decide) (by decide) ((Atoi_eq_some_iff "-5" (-5)).mp (by decide))
    (by decide)

/-! ## Claims on Score -/

/-- C10: for every candidate of the snapshot whose allocatable memory `a` satisfies
`0 ≤ a ≤ MaxInt64`, `Score` returns exactly `-a` in mode `Least` and exactly `a` in mode
`Most`, with the success status; both values are `int64` values, so nothing wraps. -/
theorem C10_score_exact (cs : CustomScheduler) (nodes : List NodeInfo) (nodeName : String)
    (nodeInfo : NodeInfo) (hget : getNodeInfo nodes nodeName = some nodeInfo)
    (h0 : 0 ≤ nodeInfo.AllocatableMemory) (h1 : nodeInfo.AllocatableMemory ≤ MaxInt64) :
    (cs.scoreMode = leastMode →
      Score cs nodes nodeName = some (-nodeInfo.AllocatableMemory, Code.Success)) ∧
    (cs.scoreMode = mostMode →
      Score cs nodes nodeName = some (nodeInfo.AllocatableMemory, Code.Success)) ∧
    isInt64 (-nodeInfo.AllocatableMemory) ∧ isInt64 nodeInfo.AllocatableMemory := by
  have hneg : neg64 nodeInfo.AllocatableMemory = -nodeInfo.AllocatableMemory := by
    unfold MaxInt64 at h1
    unfold neg64 wrap64
    omega
  have hne : mostMode ≠ leastMode := by decide
  refine ⟨?_, ?_, ?_, ?_⟩
  · intro hm
    simp only [Score, hget, hm, if_true, hneg]
  · intro hm
    simp only [Score, hget, hm, if_neg hne, if_true]
  · unfold isInt64 MinInt64; unfold MaxInt64 at *; omega
  · unfold isInt64 MinInt64; unfold MaxInt64 at *; omega

/-- C10 at the nodes of the test: `m1` with `100` and `m2` with `200` bytes, scoring `m2`. -/
theorem C10_score_exact_witness :
    Score ⟨"Least"⟩ [⟨"m1", 100⟩, ⟨"m2", 200⟩] "m2" = some (-200, Code.Success) ∧
    Score ⟨"Most"⟩ [⟨"m1", 100⟩, ⟨"m2", 200⟩] "m2" = some (200, Code.Success) :=
  ⟨(C10_score_exact ⟨"Least"⟩ [⟨"m1", 100⟩, ⟨"m2", 200⟩] "m2" ⟨"m2", 200⟩
      (by decide) (by decide) (by decide)).1 (by decide),
   (C10_score_exact ⟨"Most"⟩ [⟨"m1", 100⟩, ⟨"m2", 200⟩] "m2" ⟨"m2", 200⟩
      (by decide) (by decide) (by decide)).2.1 (by decide)⟩

/-! ## Further lemmas on NormalizeScore -/

theorem specNormalized_min {mn mx : Int} : specNormalized mn mx mn = 0 := by
  unfold specNormalized MinNodeScore MaxNodeScore
  simp only [sub_self, zero_mul, Int.zero_tdiv, add_zero]

/-- Within the spread bound `NormalizeScore` stores the exact formula for every entry. -/
theorem NormalizeScore_eq_spec {scores : List NodeScore} {mn mx : Int} (hw : wellFormed scores)
    (hnd : nonDegenerate scores) (hmin : isBatchMin scores mn) (hmax : isBatchMax scores mx)
    (hspread : mx - mn ≤ maxSpread) :
    NormalizeScore scores
      = some (scores.map (fun e => { e with Score := specNormalized mn mx e.Score }),
          Code.Success) := by
  rw [NormalizeScore_eq_map hw hnd hmin hmax]
  have hlt := isBatch_lt hnd hmin hmax
  have hm : scores.map (fun e => ({ e with Score := rescaled mx mn e.Score } : NodeScore))
      = scores.map (fun e => { e with Score := specNormalized mn mx e.Score }) :=
    List.map_congr_left (fun e he => by
      rw [rescaled_exact (hmin.2 e he) (hmax.2 e he) hlt hspread])
  rw [hm]

/-- The batch of two distinct scores `lo < hi`, in either order, normalises to `0` for
`lo` and `100` for `hi` when `hi - lo` is within the spread bound. -/
theorem NormalizeScore_pair {n1 n2 : String} {lo hi : Int} (hlo : isInt64 lo)
    (hhi : isInt64 hi) (hlt : lo < hi) (hspread : hi - lo ≤ maxSpread) :
    NormalizeScore [⟨n1, lo⟩, ⟨n2, hi⟩] = some ([⟨n1, 0⟩, ⟨n2, 100⟩], Code.Success) ∧
    NormalizeScore [⟨n1, hi⟩, ⟨n2, lo⟩] = some ([⟨n1, 100⟩, ⟨n2, 0⟩], Code.Success) := by
  constructor
  · have h := @NormalizeScore_eq_spec [⟨n1, lo⟩, ⟨n2, hi⟩] lo hi
      (by intro e he; simp at he; rcases he with rfl | rfl <;> assumption)
      ⟨⟨n1, lo⟩, by simp, ⟨n2, hi⟩, by simp, by simp; omega⟩
      ⟨⟨⟨n1, lo⟩, by simp, rfl⟩, by intro e he; simp at he; rcases he with rfl | rfl <;> (dsimp only; omega)⟩
      ⟨⟨⟨n2, hi⟩, by simp, rfl⟩, by intro e he; simp at he; rcases he with rfl | rfl <;> (dsimp only; omega)⟩
      hspread
    rw [h]
    simp only [List.map_cons, List.map_nil, specNormalized_min, specNormalized_max hlt]
  · have h := @NormalizeScore_eq_spec [⟨n1, hi⟩, ⟨n2, lo⟩] lo hi
      (by intro e he; simp at he; rcases he with rfl | rfl <;> assumption)
      ⟨⟨n1, hi⟩, by simp, ⟨n2, lo⟩, by simp, by simp; omega⟩
      ⟨⟨⟨n2, lo⟩, by simp, rfl⟩, by intro e he; simp at he; rcases he with rfl | rfl <;> (dsimp only; omega)⟩
      ⟨⟨⟨n1, hi⟩, by simp, rfl⟩, by intro e he; simp at he; rcases he with rfl | rfl <;> (dsimp only; omega)⟩
      hspread
    rw [h]
    simp only [List.map_cons, List.map_nil, specNormalized_min, specNormalized_max hlt]

theorem Score_least {nodes : List NodeInfo} {nodeName : String} {nodeInfo : NodeInfo}
    (hget : getNodeInfo nodes nodeName = some nodeInfo) :
    Score ⟨leastMode⟩ nodes nodeName = some (neg64 nodeInfo.AllocatableMemory, Code.Success) := by
  simp only [Score, hget, if_true]

theorem Score_most {nodes : List NodeInfo} {nodeName : String} {nodeInfo : NodeInfo}
    (hget : getNodeInfo nodes nodeName = some nodeInfo) :
    Score ⟨mostMode⟩ nodes nodeName = some (nodeInfo.AllocatableMemory, Code.Success) := by
  have hne : mostMode ≠ leastMode := by decide
  simp only [Score, hget, if_neg hne, if_true]

theorem neg64_of_nonneg {a : Int} (h0 : 0 ≤ a) (h1 : a ≤ MaxInt64) : neg64 a = -a := by
  unfold MaxInt64 at h1
  unfold neg64 wrap64
  omega

/-! ## Claims on the composition of Score and NormalizeScore -/

/-- C11, the code at the failing input: for the candidates `m1` with `0` and `m2` with `2^57`
bytes the unguarded product of `NormalizeScore` wraps, and the normalised scores are `-28`
for `m1` and `0` for `m2` in mode `Least`, and `0` for `m1` and `-28` for `m2` in mode
`Most`: the raw scores are in the right strict order, but the preferred candidate does not
hold the strictly higher final score in either mode. -/
theorem C11_sign_convention_overflow :
    Score ⟨leastMode⟩ [⟨"m1", 0⟩, ⟨"m2", 144115188075855872⟩] "m1" = some (0, Code.Success) ∧
    Score ⟨leastMode⟩ [⟨"m1", 0⟩, ⟨"m2", 144115188075855872⟩] "m2"
      = some (-144115188075855872, Code.Success) ∧
    NormalizeScore [⟨"m1", 0⟩, ⟨"m2", -144115188075855872⟩]
      = some ([⟨"m1", -28⟩, ⟨"m2", 0⟩], Code.Success) ∧
    Score ⟨mostMode⟩ [⟨"m1", 0⟩, ⟨"m2", 144115188075855872⟩] "m1" = some (0, Code.Success) ∧
    Score ⟨mostMode⟩ [⟨"m1", 0⟩, ⟨"m2", 144115188075855872⟩] "m2"
      = some (144115188075855872, Code.Success) ∧
    NormalizeScore [⟨"m1", 0⟩, ⟨"m2", 144115188075855872⟩]
      = some ([⟨"m1", 0⟩, ⟨"m2", -28⟩], Code.Success) ∧
    (-144115188075855872 : Int) < 0 ∧ (0 : Int) < 144115188075855872 ∧
    ¬ ((0 : Int) < -28) := by
  decide

/-- The sign convention of C11 where the product does not overflow: for every two candidates
of the snapshot with allocatable memory `0 ≤ a1 < a2 ≤ MaxInt64`, `Score` gives the raw
scores `-a1 > -a2` in mode `Least` and `a1 < a2` in mode `Most`; and when moreover
`a2 - a1 ≤ MaxInt64 / 100`, `NormalizeScore` on the two-entry batch gives the candidate with
`a1` the final score `100` and the one with `a2` the final score `0` in mode `Least`, and
`0` and `100` in mode `Most`. -/
theorem Score_NormalizeScore_sign_convention (nodes : List NodeInfo) (n1 n2 : String)
    (i1 i2 : NodeInfo)
    (h1 : getNodeInfo nodes n1 = some i1) (h2 : getNodeInfo nodes n2 = some i2)
    (h0 : 0 ≤ i1.AllocatableMemory) (hlt : i1.AllocatableMemory < i2.AllocatableMemory)
    (hmax : i2.AllocatableMemory ≤ MaxInt64) :
    (Score ⟨leastMode⟩ nodes n1 = some (-i1.AllocatableMemory, Code.Success) ∧
      Score ⟨leastMode⟩ nodes n2 = some (-i2.AllocatableMemory, Code.Success) ∧
      -i2.AllocatableMemory < -i1.AllocatableMemory) ∧
    (Score ⟨mostMode⟩ nodes n1 = some (i1.AllocatableMemory, Code.Success) ∧
      Score ⟨mostMode⟩ nodes n2 = some (i2.AllocatableMemory, Code.Success) ∧
      i1.AllocatableMemory < i2.AllocatableMemory) ∧
    (i2.AllocatableMemory - i1.AllocatableMemory ≤ maxSpread →
      NormalizeScore [⟨n1, -i1.AllocatableMemory⟩, ⟨n2, -i2.AllocatableMemory⟩]
        = some ([⟨n1, MaxNodeScore⟩, ⟨n2, MinNodeScore⟩], Code.Success) ∧
      NormalizeScore [⟨n1, i1.AllocatableMemory⟩, ⟨n2, i2.AllocatableMemory⟩]
        = some ([⟨n1, MinNodeScore⟩, ⟨n2, MaxNodeScore⟩], Code.Success)) ∧
    MinNodeScore < MaxNodeScore := by
  have hm1 : i1.AllocatableMemory ≤ MaxInt64 := by omega
  have hb : MinInt64 = -9223372036854775808 ∧ MaxInt64 = 9223372036854775807 := ⟨rfl, rfl⟩
  have hp1 : isInt64 i1.AllocatableMemory := by unfold isInt64; omega
  have hp2 : isInt64 i2.AllocatableMemory := by unfold isInt64; omega
  have hn1 : isInt64 (-i1.AllocatableMemory) := by unfold isInt64; omega
  have hn2 : isInt64 (-i2.AllocatableMemory) := by unfold isInt64; omega
  refine ⟨⟨?_, ?_, by omega⟩, ⟨Score_most h1, Score_most h2, hlt⟩, ?_, by decide⟩
  · rw [Score_least h1, neg64_of_nonneg h0 hm1]
  · rw [Score_least h2, neg64_of_nonneg (by omega) hmax]
  · intro hspread
    exact ⟨(@NormalizeScore_pair n1 n2 _ _ hn2 hn1 (by omega) (by omega)).2,
      (@NormalizeScore_pair n1 n2 _ _ hp1 hp2 hlt hspread).1⟩

/-- The sign convention at the nodes of `TestCustomScheduler_Score`: `m1` with `100` and `m2`
with `200` bytes. -/
theorem Score_NormalizeScore_sign_convention_example :
    (Score ⟨leastMode⟩ [⟨"m1", 100⟩, ⟨"m2", 200⟩] "m1" = some (-100, Code.Success) ∧
      Score ⟨leastMode⟩ [⟨"m1", 100⟩, ⟨"m2", 200⟩] "m2" = some (-200, Code.Success) ∧
      (-200 : Int) < -100) ∧
    (Score ⟨mostMode⟩ [⟨"m1", 100⟩, ⟨"m2", 200⟩] "m1" = some (100, Code.Success) ∧
      Score ⟨mostMode⟩ [⟨"m1", 100⟩, ⟨"m2", 200⟩] "m2" = some (200, Code.Success) ∧
      (100 : Int) < 200) ∧
    ((200 : Int) - 100 ≤ maxSpread →
      NormalizeScore [⟨"m1", -100⟩, ⟨"m2", -200⟩]
        = some ([⟨"m1", MaxNodeScore⟩, ⟨"m2", MinNodeScore⟩], Code.Success) ∧
      NormalizeScore [⟨"m1", 100⟩, ⟨"m2", 200⟩]
        = some ([⟨"m1", MinNodeScore⟩, ⟨"m2", MaxNodeScore⟩], Code.Success)) ∧
    MinNodeScore < MaxNodeScore :=
  Score_NormalizeScore_sign_convention [⟨"m1", 100⟩, ⟨"m2", 200⟩] "m1" "m2" ⟨"m1", 100⟩
    ⟨"m2", 200⟩ (by decide) (by decide) (by decide) (by decide) (by decide)

/-- C12, refuted as stated: in mode `Least`, at the nodes of `TestCustomScheduler_Score`,
the candidate `m2` with the most allocatable memory (`200`) receives the raw score `-200`,
which is lower than the raw score `-100` of `m1`. -/
theorem C12_least_mode_counterexample :
    Score ⟨leastMode⟩ [⟨"m1", 100⟩, ⟨"m2", 200⟩] "m1" = some (-100, Code.Success) ∧
    Score ⟨leastMode⟩ [⟨"m1", 100⟩, ⟨"m2", 200⟩] "m2" = some (-200, Code.Success) ∧
    (100 : Int) < 200 ∧ ¬ ((-100 : Int) < -200) := by
  decide

/-- C12, amended: in mode `Least`, for every two candidates of the snapshot with allocatable
memory `0 ≤ a1 < a2 ≤ MaxInt64`, the one with the least allocatable memory receives the
strictly higher raw score from `Score`: `-a1 > -a2`. -/
theorem C12_least_mode_prefers_least (nodes : List NodeInfo) (n1 n2 : String)
    (i1 i2 : NodeInfo) (h1 : getNodeInfo nodes n1 = some i1)
    (h2 : getNodeInfo nodes n2 = some i2) (h0 : 0 ≤ i1.AllocatableMemory)
    (hlt : i1.AllocatableMemory < i2.AllocatableMemory)
    (hmax : i2.AllocatableMemory ≤ MaxInt64) :
    ∃ s1 s2 : Int, Score ⟨leastMode⟩ nodes n1 = some (s1, Code.Success) ∧
      Score ⟨leastMode⟩ nodes n2 = some (s2, Code.Success) ∧
      s1 = -i1.AllocatableMemory ∧ s2 = -i2.AllocatableMemory ∧ s2 < s1 := by
  refine ⟨-i1.AllocatableMemory, -i2.AllocatableMemory, ?_, ?_, rfl, rfl, by omega⟩
  · rw [Score_least h1, neg64_of_nonneg h0 (by omega)]
  · rw [Score_least h2, neg64_of_nonneg (by omega) hmax]

/-- C12, amended, at the nodes of `TestCustomScheduler_Score`, case "least mode". -/
theorem C12_least_mode_prefers_least_witness :
    ∃ s1 s2 : Int, Score ⟨leastMode⟩ [⟨"m1", 100⟩, ⟨"m2", 200⟩] "m1" = some (s1, Code.Success) ∧
      Score ⟨leastMode⟩ [⟨"m1", 100⟩, ⟨"m2", 200⟩] "m2" = some (s2, Code.Success) ∧
      s1 = -100 ∧ s2 = -200 ∧ s2 < s1 :=
  C12_least_mode_prefers_least [⟨"m1", 100⟩, ⟨"m2", 200⟩] "m1" "m2" ⟨"m1", 100⟩ ⟨"m2", 200⟩
    (by decide) (by decide) (by decide) (by decide) (by decide)

/-! ## Claims on the shape of NormalizeScore -/

theorem wellFormed_perm {b c : List NodeScore} (hp : b.Perm c) (hw : wellFormed b) :
    wellFormed c :=
  fun e he => hw e (hp.mem_iff.mpr he)

theorem nonDegenerate_perm {b c : List NodeScore} (hp : b.Perm c) (hnd : nonDegenerate b) :
    nonDegenerate c := by
  obtain ⟨x, hx, y, hy, hxy⟩ := hnd
  exact ⟨x, hp.mem_iff.mp hx, y, hp.mem_iff.mp hy, hxy⟩

theorem isBatchMin_perm {b c : List NodeScore} {m : Int} (hp : b.Perm c)
    (h : isBatchMin b m) : isBatchMin c m := by
  obtain ⟨⟨e, he, hem⟩, hall⟩ := h
  exact ⟨⟨e, hp.mem_iff.mp he, hem⟩, fun x hx => hall x (hp.mem_iff.mpr hx)⟩

theorem isBatchMax_perm {b c : List NodeScore} {m : Int} (hp : b.Perm c)
    (h : isBatchMax b m) : isBatchMax c m := by
  obtain ⟨⟨e, he, hem⟩, hall⟩ := h
  exact ⟨⟨e, hp.mem_iff.mp he, hem⟩, fun x hx => hall x (hp.mem_iff.mpr hx)⟩

theorem nonDegenerate_ne_nil {b : List NodeScore} (hnd : nonDegenerate b) : b ≠ [] := by
  obtain ⟨x, hx, -⟩ := hnd
  exact List.ne_nil_of_mem hx

/-- C13: for every batch `b` of `int64` scores with at least two distinct raw scores and
every rearrangement `c` of its entries, there is one function `g` on raw scores such that
`NormalizeScore` turns each entry of `b` and each entry of `c` into the entry of the same
name with the score `g raw`. So the result for `c` is the same rearrangement of the result
for `b`, and entries with equal raw scores receive equal normalised scores whatever their
names. -/
theorem C13_order_and_identity_independent (b c : List NodeScore) (hw : wellFormed b)
    (hnd : nonDegenerate b) (hp : b.Perm c) :
    ∃ g : Int → Int,
      NormalizeScore b
        = some (b.map (fun e => (⟨e.Name, g e.Score⟩ : NodeScore)), Code.Success) ∧
      NormalizeScore c
        = some (c.map (fun e => (⟨e.Name, g e.Score⟩ : NodeScore)), Code.Success) ∧
      (b.map (fun e => (⟨e.Name, g e.Score⟩ : NodeScore))).Perm
        (c.map (fun e => (⟨e.Name, g e.Score⟩ : NodeScore))) := by
  obtain ⟨mn, mx, hmin, hmax⟩ := exists_isBatch hw (nonDegenerate_ne_nil hnd)
  refine ⟨rescaled mx mn, NormalizeScore_eq_map hw hnd hmin hmax, ?_, hp.map _⟩
  exact NormalizeScore_eq_map (wellFormed_perm hp hw) (nonDegenerate_perm hp hnd)
    (isBatchMin_perm hp hmin) (isBatchMax_perm hp hmax)

/-- C13 at the batch `1, 2, 3` of the tests and its rearrangement `3, 1, 2`. -/
theorem C13_order_and_identity_independent_witness :
    ∃ g : Int → Int,
      NormalizeScore [⟨"m1", 1⟩, ⟨"m2", 2⟩, ⟨"m3", 3⟩]
        = some (([⟨"m1", 1⟩, ⟨"m2", 2⟩, ⟨"m3", 3⟩] : List NodeScore).map
            (fun e => (⟨e.Name, g e.Score⟩ : NodeScore)), Code.Success) ∧
      NormalizeScore [⟨"m3", 3⟩, ⟨"m1", 1⟩, ⟨"m2", 2⟩]
        = some (([⟨"m3", 3⟩, ⟨"m1", 1⟩, ⟨"m2", 2⟩] : List NodeScore).map
            (fun e => (⟨e.Name, g e.Score⟩ : NodeScore)), Code.Success) ∧
      (([⟨"m1", 1⟩, ⟨"m2", 2⟩, ⟨"m3", 3⟩] : List NodeScore).map
          (fun e => (⟨e.Name, g e.Score⟩ : NodeScore))).Perm
        (([⟨"m3", 3⟩, ⟨"m1", 1⟩, ⟨"m2", 2⟩] : List NodeScore).map
          (fun e => (⟨e.Name, g e.Score⟩ : NodeScore))) :=
  C13_order_and_identity_independent [⟨"m1", 1⟩, ⟨"m2", 2⟩, ⟨"m3", 3⟩]
    [⟨"m3", 3⟩, ⟨"m1", 1⟩, ⟨"m2", 2⟩] (by decide) (by decide) (by decide)

/-- C14, refuted as stated: in the batch `0, 1, 1000` the entry `1` lies strictly between the
minimum and the maximum and is truncated to `0 = MinScore`; in the batch
`0, 10^17, 2*10^17` the product wraps and the middle entry receives `-42`. -/
theorem C14_strictly_between_counterexample :
    (nonDegenerate [⟨"m1", 0⟩, ⟨"m2", 1⟩, ⟨"m3", 1000⟩] ∧
      isBatchMin [⟨"m1", 0⟩, ⟨"m2", 1⟩, ⟨"m3", 1000⟩] 0 ∧
      isBatchMax [⟨"m1", 0⟩, ⟨"m2", 1⟩, ⟨"m3", 1000⟩] 1000 ∧
      NormalizeScore [⟨"m1", 0⟩, ⟨"m2", 1⟩, ⟨"m3", 1000⟩]
        = some ([⟨"m1", 0⟩, ⟨"m2", 0⟩, ⟨"m3", 100⟩], Code.Success) ∧
      ¬ (MinNodeScore < (0 : Int))) ∧
    (nonDegenerate [⟨"m1", 0⟩, ⟨"m2", 100000000000000000⟩, ⟨"m3", 200000000000000000⟩] ∧
      wellFormed [⟨"m1", 0⟩, ⟨"m2", 100000000000000000⟩, ⟨"m3", 200000000000000000⟩] ∧
      NormalizeScore [⟨"m1", 0⟩, ⟨"m2", 100000000000000000⟩, ⟨"m3", 200000000000000000⟩]
        = some ([⟨"m1", 0⟩, ⟨"m2", -42⟩, ⟨"m3", 7⟩], Code.Success) ∧
      ¬ (MinNodeScore < (-42 : Int))) := by
  decide

/-- C14, amended: for every batch of `int64` scores with at least two distinct raw scores and
spread `maxScore - minScore` at most `MaxInt64 / 100`, every entry whose raw score `s` is
strictly between the batch minimum and the batch maximum receives a normalised score that is
at least `MinScore = 0` and strictly less than `MaxScore = 100`; it is strictly greater than
`MinScore` exactly when `(s - minScore) * 100 ≥ maxScore - minScore`. -/
theorem C14_strictly_between (scores : List NodeScore) (minScore maxScore : Int)
    (hw : wellFormed scores) (hnd : nonDegenerate scores)
    (hmin : isBatchMin scores minScore) (hmax : isBatchMax scores maxScore)
    (hspread : maxScore - minScore ≤ maxSpread) :
    ∃ out, NormalizeScore scores = some (out, Code.Success) ∧
      List.Forall₂ (fun (raw res : NodeScore) =>
        minScore < raw.Score → raw.Score < maxScore →
          MinNodeScore ≤ res.Score ∧ res.Score < MaxNodeScore ∧
          (MinNodeScore < res.Score ↔ maxScore - minScore ≤ (raw.Score - minScore) * 100))
        scores out := by
  refine ⟨_, NormalizeScore_eq_spec hw hnd hmin hmax hspread, ?_⟩
  rw [List.forall₂_map_right_iff, List.forall₂_same]
  intro e _ h1 h2
  show MinNodeScore ≤ specNormalized minScore maxScore e.Score ∧
    specNormalized minScore maxScore e.Score < MaxNodeScore ∧
    (MinNodeScore < specNormalized minScore maxScore e.Score ↔ _)
  unfold specNormalized MinNodeScore MaxNodeScore
  simp only [sub_zero, zero_add]
  rw [Int.tdiv_eq_ediv (by omega) (by omega)]
  have hd : 0 < maxScore - minScore := by omega
  refine ⟨Int.ediv_nonneg (by omega) (by omega), ?_, ?_⟩
  · apply Int.ediv_lt_of_lt_mul hd
    nlinarith
  · have := @Int.le_ediv_iff_mul_le 1 ((e.Score - minScore) * 100) (maxScore - minScore) hd
    constructor
    · intro h
      have := this.mp (by omega)
      omega
    · intro h
      have := this.mpr (by omega)
      omega

/-- C14, amended, at the batch `1, 2, 3` of the tests, whose middle entry receives `50`. -/
theorem C14_strictly_between_witness :
    ∃ out, NormalizeScore [⟨"m1", 1⟩, ⟨"m2", 2⟩, ⟨"m3", 3⟩] = some (out, Code.Success) ∧
      List.Forall₂ (fun (raw res : NodeScore) =>
        1 < raw.Score → raw.Score < 3 →
          MinNodeScore ≤ res.Score ∧ res.Score < MaxNodeScore ∧
          (MinNodeScore < res.Score ↔ 3 - 1 ≤ (raw.Score - 1) * 100))
        [⟨"m1", 1⟩, ⟨"m2", 2⟩, ⟨"m3", 3⟩] out :=
  C14_strictly_between [⟨"m1", 1⟩, ⟨"m2", 2⟩, ⟨"m3", 3⟩] 1 3
    (by decide) (by decide) (by decide) (by decide) (by decide)

/-! ## Claims on New -/

/-- C15: for every supplied configuration (a non-nil object), with `mode` the value that
`csArgs.Mode` holds after `json.Unmarshal`: when `mode` is neither `Least` nor `Most`, `New`
returns no plugin and the error "invalid mode, got mode"; when it is `Least` or `Most`, `New`
returns a plugin whose `scoreMode` is exactly `mode`; and when decoding fails and leaves
`csArgs` zero-valued (empty mode), `New` returns the error. -/
theorem C15_New_validates_mode
    (jsonUnmarshal : String → CustomSchedulerArgs → CustomSchedulerArgs × Bool)
    (args : Unknown) :
    (((jsonUnmarshal args.Raw { Mode := "" }).1.Mode ≠ leastMode ∧
        (jsonUnmarshal args.Raw { Mode := "" }).1.Mode ≠ mostMode) →
      New jsonUnmarshal (some args)
        = NewResult.err ("invalid mode, got " ++ (jsonUnmarshal args.Raw { Mode := "" }).1.Mode)) ∧
    (((jsonUnmarshal args.Raw { Mode := "" }).1.Mode = leastMode ∨
        (jsonUnmarshal args.Raw { Mode := "" }).1.Mode = mostMode) →
      New jsonUnmarshal (some args)
        = NewResult.plugin
            { scoreMode := (jsonUnmarshal args.Raw { Mode := "" }).1.Mode }) ∧
    (jsonUnmarshal args.Raw { Mode := "" } = ({ Mode := "" }, true) →
      New jsonUnmarshal (some args) = NewResult.err "invalid mode, got ") := by
  refine ⟨?_, ?_, ?_⟩
  · intro h
    simp only [New]
    rw [if_pos h]
  · intro h
    have hn : ¬ ((jsonUnmarshal args.Raw { Mode := "" }).1.Mode ≠ leastMode ∧
        (jsonUnmarshal args.Raw { Mode := "" }).1.Mode ≠ mostMode) := by
      rintro ⟨h1, h2⟩
      rcases h with h | h
      · exact h1 h
      · exact h2 h
    simp only [New]
    rw [if_neg hn]
  · intro h
    simp only [New, h]
    decide

/-- C15 at a configuration that decodes to the mode `Most`, and at one that decodes to the
unrecognised mode `Average`. -/
theorem C15_New_validates_mode_witness :
    New (fun _ _ => (⟨"Most"⟩, false)) (some ⟨"config"⟩) = NewResult.plugin ⟨"Most"⟩ ∧
    New (fun _ _ => (⟨"Average"⟩, false)) (some ⟨"config"⟩)
      = NewResult.err ("invalid mode, got " ++ "Average") :=
  ⟨(C15_New_validates_mode (fun _ _ => (⟨"Most"⟩, false)) ⟨"config"⟩).2.1 (by decide),
    (C15_New_validates_mode (fun _ _ => (⟨"Average"⟩, false)) ⟨"config"⟩).1 (by decide)⟩

/-! ## Claims on repeated and in-place normalisation -/

theorem specNormalized_unit (s : Int) : specNormalized 0 100 s = s := by
  unfold specNormalized MinNodeScore MaxNodeScore
  simp only [sub_zero, zero_add]
  exact Int.mul_tdiv_cancel s (by decide)

/-- C16, the code at the failing input: the unguarded product wraps on the batch `0, 2^57`,
which normalises to `0, -28`, and normalising that result gives `100, 0`, a different
batch. -/
theorem C16_idempotent_overflow :
    wellFormed [⟨"m1", 0⟩, ⟨"m2", 144115188075855872⟩] ∧
    nonDegenerate [⟨"m1", 0⟩, ⟨"m2", 144115188075855872⟩] ∧
    NormalizeScore [⟨"m1", 0⟩, ⟨"m2", 144115188075855872⟩]
      = some ([⟨"m1", 0⟩, ⟨"m2", -28⟩], Code.Success) ∧
    NormalizeScore [⟨"m1", 0⟩, ⟨"m2", -28⟩]
      = some ([⟨"m1", 100⟩, ⟨"m2", 0⟩], Code.Success) ∧
    ([⟨"m1", 100⟩, ⟨"m2", 0⟩] : List NodeScore) ≠ [⟨"m1", 0⟩, ⟨"m2", -28⟩] := by
  decide

/-- The idempotence of C16 where the product does not overflow: for every batch of `int64`
scores with at least two distinct raw scores in
which no two raw scores differ by more than `MaxInt64 / 100`, `NormalizeScore` succeeds, and
applied to its own result it succeeds again and changes no value. -/
theorem NormalizeScore_idempotent_within_spread (scores : List NodeScore) (hw : wellFormed scores)
    (hnd : nonDegenerate scores)
    (hspread : ∀ a ∈ scores, ∀ b ∈ scores, a.Score - b.Score ≤ maxSpread) :
    ∃ out, NormalizeScore scores = some (out, Code.Success) ∧
      NormalizeScore out = some (out, Code.Success) := by
  obtain ⟨mn, mx, hmin, hmax⟩ := exists_isBatch hw (nonDegenerate_ne_nil hnd)
  have hlt := isBatch_lt hnd hmin hmax
  obtain ⟨⟨en, hen, hen1⟩, hmn⟩ := hmin
  obtain ⟨⟨ex, hex, hex1⟩, hmx⟩ := hmax
  have hs : mx - mn ≤ maxSpread := by have := hspread ex hex en hen; omega
  refine ⟨_, NormalizeScore_eq_spec hw hnd ⟨⟨en, hen, hen1⟩, hmn⟩ ⟨⟨ex, hex, hex1⟩, hmx⟩ hs, ?_⟩
  have hb : ∀ e ∈ scores, 0 ≤ specNormalized mn mx e.Score ∧
      specNormalized mn mx e.Score ≤ 100 :=
    fun e he => specNormalized_bounds (hmn e he) (hmx e he) hlt
  have hmem : ∀ e ∈ scores,
      (⟨e.Name, specNormalized mn mx e.Score⟩ : NodeScore)
        ∈ scores.map (fun e => ({ e with Score := specNormalized mn mx e.Score } : NodeScore)) :=
    fun e he => List.mem_map.mpr ⟨e, he, rfl⟩
  have h0 : specNormalized mn mx en.Score = 0 := by rw [hen1]; exact specNormalized_min
  have h100 : specNormalized mn mx ex.Score = 100 := by
    rw [hex1]; exact specNormalized_max hlt
  have hw2 : wellFormed
      (scores.map (fun e => ({ e with Score := specNormalized mn mx e.Score } : NodeScore))) := by
    intro r hr
    obtain ⟨e, he, rfl⟩ := List.mem_map.mp hr
    have := hb e he
    show isInt64 (specNormalized mn mx e.Score)
    unfold isInt64 MinInt64 MaxInt64
    omega
  have hnd2 : nonDegenerate
      (scores.map (fun e => ({ e with Score := specNormalized mn mx e.Score } : NodeScore))) :=
    ⟨_, hmem en hen, _, hmem ex hex, by
      show specNormalized mn mx en.Score ≠ specNormalized mn mx ex.Score
      rw [h0, h100]; decide⟩
  have hmin2 : isBatchMin
      (scores.map (fun e => ({ e with Score := specNormalized mn mx e.Score } : NodeScore))) 0 :=
    ⟨⟨_, hmem en hen, h0⟩, fun r hr => by
      obtain ⟨e, he, rfl⟩ := List.mem_map.mp hr
      exact (hb e he).1⟩
  have hmax2 : isBatchMax
      (scores.map (fun e => ({ e with Score := specNormalized mn mx e.Score } : NodeScore)))
      100 :=
    ⟨⟨_, hmem ex hex, h100⟩, fun r hr => by
      obtain ⟨e, he, rfl⟩ := List.mem_map.mp hr
      exact (hb e he).2⟩
  rw [NormalizeScore_eq_spec hw2 hnd2 hmin2 hmax2 (by decide)]
  simp only [specNormalized_unit, List.map_id']

/-- The idempotence at the batch `1, 2, 3` of the tests: the result `0, 50, 100` is a fixed
point. -/
theorem NormalizeScore_idempotent_within_spread_example :
    ∃ out, NormalizeScore [⟨"m1", 1⟩, ⟨"m2", 2⟩, ⟨"m3", 3⟩] = some (out, Code.Success) ∧
      NormalizeScore out = some (out, Code.Success) :=
  NormalizeScore_idempotent_within_spread [⟨"m1", 1⟩, ⟨"m2", 2⟩, ⟨"m3", 3⟩] (by decide) (by decide) (by decide)

theorem rescaleInPlace_zero_divisor {maxScore minScore : Int}
    (hd : sub64 maxScore minScore = 0) (s : NodeScore) (rest : List NodeScore) :
    rescaleInPlace maxScore minScore (s :: rest) = (s :: rest, true) := by
  simp [rescaleInPlace, div64, hd]

theorem rescaleInPlace_eq_map {maxScore minScore : Int} (hd : sub64 maxScore minScore ≠ 0)
    (l : List NodeScore) :
    rescaleInPlace maxScore minScore l
      = (l.map (fun e => { e with Score := rescaled maxScore minScore e.Score }), false) := by
  induction l with
  | nil => rfl
  | cons s rest ih => simp [rescaleInPlace, div64, hd, ih, rescaled]

/-- The two models of the second loop agree: the loop returns the slice it has rewritten, or
panics at the first entry with the slice untouched. -/
theorem rescale_inPlace (maxScore minScore : Int) (l : List NodeScore) :
    (∀ out, rescale maxScore minScore l = some out →
      rescaleInPlace maxScore minScore l = (out, false)) ∧
    (rescale maxScore minScore l = none → rescaleInPlace maxScore minScore l = (l, true)) := by
  by_cases hd : sub64 maxScore minScore = 0
  · cases l with
    | nil =>
      constructor
      · intro out h
        simp only [rescale, Option.some.injEq] at h
        rw [← h]; rfl
      · intro h; cases h
    | cons s rest =>
      rw [rescale_zero_divisor hd, rescaleInPlace_zero_divisor hd]
      exact ⟨fun out h => (by cases h), fun _ => rfl⟩
  · rw [rescale_eq_map hd, rescaleInPlace_eq_map hd]
    constructor
    · intro out h
      rw [Option.some.inj h]
    · intro h; cases h

theorem rescaleInPlace_names (maxScore minScore : Int) (l : List NodeScore) :
    (rescaleInPlace maxScore minScore l).1.map NodeScore.Name = l.map NodeScore.Name := by
  by_cases hd : sub64 maxScore minScore = 0
  · cases l with
    | nil => rfl
    | cons s rest => rw [rescaleInPlace_zero_divisor hd]
  · rw [rescaleInPlace_eq_map hd]
    simp only [List.map_map]
    rfl

theorem NormalizeScoreInPlace_fst (scores : List NodeScore) :
    (NormalizeScoreInPlace scores).1
      = (rescaleInPlace (scanRange scores (MinInt64, MaxInt64)).1
          (scanRange scores (MinInt64, MaxInt64)).2 scores).1 := by
  unfold NormalizeScoreInPlace
  cases h : (rescaleInPlace (scanRange scores (MinInt64, MaxInt64)).1
      (scanRange scores (MinInt64, MaxInt64)).2 scores) with
  | mk out p => cases p <;> simp [h]

/-- C17: for every batch, the slice that `NormalizeScore` leaves behind (whether it returns
or panics) has the same length as the input and its `i`-th entry carries the same candidate
name as the `i`-th input entry; when the call returns, that slice is the returned result,
and when it panics the slice is untouched. -/
theorem C17_only_scores_rewritten (scores : List NodeScore) :
    (NormalizeScoreInPlace scores).1.length = scores.length ∧
    (∀ i : Nat, ((NormalizeScoreInPlace scores).1[i]?).map NodeScore.Name
      = (scores[i]?).map NodeScore.Name) ∧
    (∀ out st, NormalizeScore scores = some (out, st) →
      NormalizeScoreInPlace scores = (out, some st)) ∧
    (NormalizeScore scores = none → NormalizeScoreInPlace scores = (scores, none)) := by
  have hn := rescaleInPlace_names (scanRange scores (MinInt64, MaxInt64)).1
    (scanRange scores (MinInt64, MaxInt64)).2 scores
  rw [← NormalizeScoreInPlace_fst] at hn
  obtain ⟨hr1, hr2⟩ := rescale_inPlace (scanRange scores (MinInt64, MaxInt64)).1
    (scanRange scores (MinInt64, MaxInt64)).2 scores
  refine ⟨?_, ?_, ?_, ?_⟩
  · have := congrArg List.length hn
    simpa only [List.length_map] using this
  · intro i
    rw [← List.getElem?_map, ← List.getElem?_map, hn]
  · intro out st h
    unfold NormalizeScore at h
    cases hres : rescale (scanRange scores (MinInt64, MaxInt64)).1
        (scanRange scores (MinInt64, MaxInt64)).2 scores with
    | none => simp [hres] at h
    | some o =>
      simp only [hres, Option.some.injEq, Prod.mk.injEq] at h
      unfold NormalizeScoreInPlace
      simp only [hr1 o hres]
      rw [h.1, h.2]
  · intro h
    unfold NormalizeScore at h
    cases hres : rescale (scanRange scores (MinInt64, MaxInt64)).1
        (scanRange scores (MinInt64, MaxInt64)).2 scores with
    | none =>
      unfold NormalizeScoreInPlace
      simp only [hr2 hres]
    | some o => simp [hres] at h

/-! ## Claims on ranking and on wraparound -/

theorem specNormalized_mono {mn mx s t : Int} (hs : mn ≤ s) (hst : s ≤ t) (hlt : mn < mx) :
    specNormalized mn mx s ≤ specNormalized mn mx t := by
  unfold specNormalized MinNodeScore MaxNodeScore
  simp only [sub_zero, zero_add]
  rw [Int.tdiv_eq_ediv (by omega) (by omega), Int.tdiv_eq_ediv (by omega) (by omega)]
  exact Int.ediv_le_ediv (by omega) (by omega)

/-- C18, the code at the failing input: the unguarded product wraps on the batch
`0, 2^56, 2^57`, which normalises to `0, 50, -28`; the raw
score of `m2` is below that of `m3`, but its normalised score `50` is above `-28`. -/
theorem C18_weakly_monotone_overflow :
    wellFormed [⟨"m1", 0⟩, ⟨"m2", 72057594037927936⟩, ⟨"m3", 144115188075855872⟩] ∧
    nonDegenerate [⟨"m1", 0⟩, ⟨"m2", 72057594037927936⟩, ⟨"m3", 144115188075855872⟩] ∧
    NormalizeScore [⟨"m1", 0⟩, ⟨"m2", 72057594037927936⟩, ⟨"m3", 144115188075855872⟩]
      = some ([⟨"m1", 0⟩, ⟨"m2", 50⟩, ⟨"m3", -28⟩], Code.Success) ∧
    (72057594037927936 : Int) ≤ 144115188075855872 ∧ ¬ ((50 : Int) ≤ -28) := by
  decide

/-- The monotonicity of C18 where the product does not overflow: for every batch of `int64`
scores with at least two distinct raw scores in
which no two raw scores differ by more than `MaxInt64 / 100`, `NormalizeScore` succeeds and
stores for each entry a function `g` of its raw score that is weakly increasing over the
batch: `raw_i ≤ raw_j` implies `normalized_i ≤ normalized_j`. -/
theorem NormalizeScore_weakly_monotone_within_spread (scores : List NodeScore) (hw : wellFormed scores)
    (hnd : nonDegenerate scores)
    (hspread : ∀ a ∈ scores, ∀ b ∈ scores, a.Score - b.Score ≤ maxSpread) :
    ∃ g : Int → Int,
      NormalizeScore scores
        = some (scores.map (fun e => (⟨e.Name, g e.Score⟩ : NodeScore)), Code.Success) ∧
      ∀ a ∈ scores, ∀ b ∈ scores, a.Score ≤ b.Score → g a.Score ≤ g b.Score := by
  obtain ⟨mn, mx, hmin, hmax⟩ := exists_isBatch hw (nonDegenerate_ne_nil hnd)
  have hlt := isBatch_lt hnd hmin hmax
  have hs : mx - mn ≤ maxSpread := by
    obtain ⟨en, hen, hen1⟩ := hmin.1
    obtain ⟨ex, hex, hex1⟩ := hmax.1
    have := hspread ex hex en hen
    omega
  exact ⟨specNormalized mn mx, NormalizeScore_eq_spec hw hnd hmin hmax hs,
    fun a ha _ _ hab => specNormalized_mono (hmin.2 a ha) hab hlt⟩

/-- The monotonicity at the batch `-1000, -2000, -3000` of the tests. -/
theorem NormalizeScore_weakly_monotone_within_spread_example :
    ∃ g : Int → Int,
      NormalizeScore [⟨"m1", -1000⟩, ⟨"m2", -2000⟩, ⟨"m3", -3000⟩]
        = some (([⟨"m1", -1000⟩, ⟨"m2", -2000⟩, ⟨"m3", -3000⟩] : List NodeScore).map
            (fun e => (⟨e.Name, g e.Score⟩ : NodeScore)), Code.Success) ∧
      ∀ a ∈ ([⟨"m1", -1000⟩, ⟨"m2", -2000⟩, ⟨"m3", -3000⟩] : List NodeScore),
        ∀ b ∈ ([⟨"m1", -1000⟩, ⟨"m2", -2000⟩, ⟨"m3", -3000⟩] : List NodeScore),
          a.Score ≤ b.Score → g a.Score ≤ g b.Score :=
  NormalizeScore_weakly_monotone_within_spread [⟨"m1", -1000⟩, ⟨"m2", -2000⟩, ⟨"m3", -3000⟩]
    (by decide) (by decide) (by decide)

/-- C19: with `int64` wraparound arithmetic, for every batch with at least two distinct raw
scores whose spread `maxScore - minScore` is at most `MaxInt64 / 100`, `NormalizeScore`
computes the values of the exact unbounded-integer formula; and there is a batch of `int64`
scores, `-5*10^16, 5*10^16`, whose spread `10^17` is itself an `int64` value above
`MaxInt64 / 100`, for which the product `(s - minScore) * 100` is outside the `int64` range,
the result `0, -84` differs from the exact formula `0, 100`, and leaves `[0, 100]`. -/
theorem C19_wraparound (scores : List NodeScore) (minScore maxScore : Int)
    (hw : wellFormed scores) (hnd : nonDegenerate scores)
    (hmin : isBatchMin scores minScore) (hmax : isBatchMax scores maxScore)
    (hspread : maxScore - minScore ≤ maxSpread) :
    NormalizeScore scores
      = some (scores.map (fun e => { e with Score := specNormalized minScore maxScore e.Score }),
          Code.Success) ∧
    ∃ (batch out : List NodeScore) (lo hi : Int),
      wellFormed batch ∧ nonDegenerate batch ∧ isBatchMin batch lo ∧ isBatchMax batch hi ∧
      isInt64 (hi - lo) ∧ maxSpread < hi - lo ∧ ¬ isInt64 ((hi - lo) * 100) ∧
      NormalizeScore batch = some (out, Code.Success) ∧
      out ≠ batch.map (fun e => { e with Score := specNormalized lo hi e.Score }) ∧
      ∃ e ∈ out, ¬ (MinNodeScore ≤ e.Score ∧ e.Score ≤ MaxNodeScore) := by
  refine ⟨NormalizeScore_eq_spec hw hnd hmin hmax hspread,
    [⟨"m1", -50000000000000000⟩, ⟨"m2", 50000000000000000⟩], [⟨"m1", 0⟩, ⟨"m2", -84⟩],
    -50000000000000000, 50000000000000000, ?_⟩
  decide

/-- C19 at the batch `1000, 2000, 3000` of the tests for the first part. -/
theorem C19_wraparound_witness :
    NormalizeScore [⟨"m1", 1000⟩, ⟨"m2", 2000⟩, ⟨"m3", 3000⟩]
      = some ([⟨"m1", 0⟩, ⟨"m2", 50⟩, ⟨"m3", 100⟩], Code.Success) ∧
    ∃ (batch out : List NodeScore) (lo hi : Int),
      wellFormed batch ∧ nonDegenerate batch ∧ isBatchMin batch lo ∧ isBatchMax batch hi ∧
      isInt64 (hi - lo) ∧ maxSpread < hi - lo ∧ ¬ isInt64 ((hi - lo) * 100) ∧
      NormalizeScore batch = some (out, Code.Success) ∧
      out ≠ batch.map (fun e => { e with Score := specNormalized lo hi e.Score }) ∧
      ∃ e ∈ out, ¬ (MinNodeScore ≤ e.Score ∧ e.Score ≤ MaxNodeScore) :=
  C19_wraparound [⟨"m1", 1000⟩, ⟨"m2", 2000⟩, ⟨"m3", 3000⟩] 1000 3000
    (by decide) (by decide) (by decide) (by decide) (by decide)

/-! ## Claims on the scorers that New builds -/

/-- C20: every plugin returned by `New` has `scoreMode` equal to `Least` or `Most`, and a
nil configuration gives the plugin with mode `Least`; so for every such plugin and every
node of the snapshot `Score` takes one of its first two branches and returns the `int64`
negation of the allocatable memory (which is exactly `-a` for `MinInt64 < a`) in mode
`Least`, or the allocatable memory itself in mode `Most`, never the constant of the
fallback branch. -/
theorem C20_New_mode_invariant
    (jsonUnmarshal : String → CustomSchedulerArgs → CustomSchedulerArgs × Bool)
    (obj : Option Unknown) (cs : CustomScheduler)
    (hnew : New jsonUnmarshal obj = NewResult.plugin cs) :
    (cs.scoreMode = leastMode ∨ cs.scoreMode = mostMode) ∧
    (obj = none → cs.scoreMode = leastMode) ∧
    New jsonUnmarshal none = NewResult.plugin { scoreMode := leastMode } ∧
    (∀ (nodes : List NodeInfo) (nodeName : String) (nodeInfo : NodeInfo),
      getNodeInfo nodes nodeName = some nodeInfo →
        ((cs.scoreMode = leastMode ∧
            Score cs nodes nodeName = some (neg64 nodeInfo.AllocatableMemory, Code.Success)) ∨
          (cs.scoreMode = mostMode ∧
            Score cs nodes nodeName = some (nodeInfo.AllocatableMemory, Code.Success))) ∧
        (MinInt64 < nodeInfo.AllocatableMemory → nodeInfo.AllocatableMemory ≤ MaxInt64 →
          neg64 nodeInfo.AllocatableMemory = -nodeInfo.AllocatableMemory)) := by
  have hmode : cs.scoreMode = leastMode ∨ cs.scoreMode = mostMode := by
    cases obj with
    | none =>
      simp only [New, NewResult.plugin.injEq] at hnew
      left; rw [← hnew]
    | some args =>
      simp only [New] at hnew
      by_cases h : (jsonUnmarshal args.Raw { Mode := "" }).1.Mode ≠ leastMode ∧
          (jsonUnmarshal args.Raw { Mode := "" }).1.Mode ≠ mostMode
      · rw [if_pos h] at hnew
        cases hnew
      · rw [if_neg h, NewResult.plugin.injEq] at hnew
        rw [← hnew]
        show (jsonUnmarshal args.Raw { Mode := "" }).1.Mode = leastMode ∨
          (jsonUnmarshal args.Raw { Mode := "" }).1.Mode = mostMode
        by_cases h1 : (jsonUnmarshal args.Raw { Mode := "" }).1.Mode = leastMode
        · exact Or.inl h1
        · by_cases h2 : (jsonUnmarshal args.Raw { Mode := "" }).1.Mode = mostMode
          · exact Or.inr h2
          · exact absurd ⟨h1, h2⟩ h
  refine ⟨hmode, ?_, rfl, ?_⟩
  · intro ho
    subst ho
    simp only [New, NewResult.plugin.injEq] at hnew
    rw [← hnew]
  · intro nodes nodeName nodeInfo hget
    constructor
    · rcases hmode with hm | hm
      · left
        refine ⟨hm, ?_⟩
        simp only [Score, hget, hm, if_true]
      · right
        have hne : mostMode ≠ leastMode := by decide
        refine ⟨hm, ?_⟩
        simp only [Score, hget, hm, if_neg hne, if_true]
    · intro h1 h2
      unfold MinInt64 at h1
      unfold MaxInt64 at h2
      unfold neg64 wrap64
      omega

/-- C20 at a configuration that decodes to the mode `Most`. -/
theorem C20_New_mode_invariant_witness :
    (("Most" : String) = leastMode ∨ ("Most" : String) = mostMode) ∧
    Score ⟨"Most"⟩ [⟨"m1", 100⟩, ⟨"m2", 200⟩] "m2" = some (200, Code.Success) :=
  ⟨(C20_New_mode_invariant (fun _ _ => (⟨"Most"⟩, false)) (some ⟨"config"⟩) ⟨"Most"⟩
      (by decide)).1,
    by decide⟩

end Plugins
